import Mathlib

/-!
Verification of the Sundown-derived Markdown engine in `markdown.h`.

Bytes are modelled as natural numbers below 256 where relevant; buffers as
lists of bytes.  Machine arithmetic (`unsigned int`, `size_t`) is modelled
with `Nat`, with an explicit `% 2 ^ 32` where the source relies on
wraparound.  Each definition is a direct transcription of the corresponding
C function; loops become structural or well-founded recursion.
-/

namespace Markdown

/-! ### Byte classification (ctype.h, C locale) -/

/-- C `isalnum` on an unsigned byte in the C locale: ASCII digits and letters. -/
def isalnumB (b : Nat) : Bool :=
  decide ((48 ≤ b ∧ b ≤ 57) ∨ (65 ≤ b ∧ b ≤ 90) ∨ (97 ≤ b ∧ b ≤ 122))

/-- C `isalpha` on an unsigned byte in the C locale: ASCII letters. -/
def isalphaB (b : Nat) : Bool :=
  decide ((65 ≤ b ∧ b ≤ 90) ∨ (97 ≤ b ∧ b ≤ 122))

/-- C `tolower` on an unsigned byte in the C locale. -/
def tolowerB (b : Nat) : Nat :=
  if 65 ≤ b ∧ b ≤ 90 then b + 32 else b

/-! ### Byte buffer (`buffer.c` region)

A buffer is modelled by its meaningful content (`data`, the first `size`
bytes of the C array), the allocated capacity `asize` and the growth
quantum `unit`.  `realloc` is assumed to succeed; the only failure mode
kept is the hard allocation cap, which the source checks before touching
the buffer. -/

/-- `BUFFER_MAX_ALLOC_SIZE`: the 16 MiB cap on a single growth request. -/
def BUFFER_MAX_ALLOC_SIZE : Nat := 1024 * 1024 * 16

/-- Error codes of the buffer layer (`buferror_t`). -/
inductive buferror where
  | BUF_OK : buferror
  | BUF_ENOMEM : buferror
deriving Repr, DecidableEq

/-- `struct sd_buf`: content bytes, allocated size, reallocation unit. -/
structure sd_buf where
  data : List Nat
  asize : Nat
  unit : Nat
deriving Repr, DecidableEq

/-- The `size` field of a buffer is the length of its meaningful content. -/
def sd_buf.size (b : sd_buf) : Nat := b.data.length

/-- The capacity chosen by `sd_bufgrow`'s quantum loop
(`neoasz = asize + unit; while (neoasz < neosz) neoasz += unit;`):
the first value `asize + k * unit` with `k ≥ 1` reaching `neosz`. -/
def growAsize (asize unit neosz : Nat) : Nat :=
  asize + unit * max 1 ((neosz - asize + unit - 1) / unit)

/-- `sd_bufgrow`: grow the allocation to at least `neosz`, refusing any
request beyond the 16 MiB cap before modifying the buffer. -/
def sd_bufgrow (b : sd_buf) (neosz : Nat) : buferror × sd_buf :=
  if BUFFER_MAX_ALLOC_SIZE < neosz then (.BUF_ENOMEM, b)
  else if neosz ≤ b.asize then (.BUF_OK, b)
  else (.BUF_OK, { b with asize := growAsize b.asize b.unit neosz })

/-- `sd_bufput`: append raw bytes; growth failure is a silent no-op. -/
def sd_bufput (b : sd_buf) (bytes : List Nat) : sd_buf :=
  if b.asize < b.size + bytes.length then
    match sd_bufgrow b (b.size + bytes.length) with
    | (.BUF_ENOMEM, _) => b
    | (.BUF_OK, b') => { b' with data := b'.data ++ bytes }
  else { b with data := b.data ++ bytes }

/-- `sd_bufputc`: append a single byte; growth failure is a silent no-op. -/
def sd_bufputc (b : sd_buf) (c : Nat) : sd_buf :=
  if b.asize < b.size + 1 then
    match sd_bufgrow b (b.size + 1) with
    | (.BUF_ENOMEM, _) => b
    | (.BUF_OK, b') => { b' with data := b'.data ++ [c] }
  else { b with data := b.data ++ [c] }

/-! ### Tab expansion (`expand_tabs`)

The source copies runs of non-tab bytes and, at each tab, runs
`do { bufputc(' '); tab++; } while (tab % 4);` where `tab` counts the
bytes emitted for the current line; the do-while emits `4 - tab % 4`
spaces.  The output buffer is modelled by the emitted byte list. -/

/-- The loop body of `expand_tabs`, carrying the `tab` column counter. -/
def expandTabsGo : List Nat → Nat → List Nat
  | [], _ => []
  | b :: rest, tab =>
      if b = 9 then
        List.replicate (4 - tab % 4) 32 ++ expandTabsGo rest (tab + (4 - tab % 4))
      else b :: expandTabsGo rest (tab + 1)

/-- `expand_tabs` on one input line (`tab` starts at 0). -/
def expand_tabs (line : List Nat) : List Nat := expandTabsGo line 0

/-- Specification-side restatement of the tab law: each tab at output
column `c` (the number of bytes already emitted for the line) becomes
`4 - c % 4` spaces; other bytes are copied unchanged in order. -/
def expandTabsSpec (line : List Nat) : List Nat :=
  line.foldl
    (fun out b =>
      out ++ (if b = 9 then List.replicate (4 - out.length % 4) 32 else [b])) []

/-! ### Safe autolink schemes (`sd_autolink_issafe`) -/

/-- The `valid_uris` table, as byte strings. -/
def valid_uris : List (List Nat) :=
  [[47],
   [104, 116, 116, 112, 58, 47, 47],
   [104, 116, 116, 112, 115, 58, 47, 47],
   [102, 116, 112, 58, 47, 47],
   [109, 97, 105, 108, 116, 111, 58]]

/-- `strncasecmp(a, b, n) == 0`: the first `n` bytes agree up to `tolower`. -/
def strncaseEq (a b : List Nat) (n : Nat) : Bool :=
  (a.take n).map tolowerB == (b.take n).map tolowerB

/-- `sd_autolink_issafe`: the link starts (case-insensitively) with one of
the safe prefixes and the byte right after the prefix exists and is
alphanumeric. -/
def sd_autolink_issafe (link : List Nat) : Bool :=
  valid_uris.any fun uri =>
    decide (uri.length < link.length) && strncaseEq link uri uri.length &&
      isalnumB (link.getD uri.length 0)

/-- Specification-side reading of the safe-link rule, quantifying over the
prefix table. -/
def autolinkSafeSpec (link : List Nat) : Prop :=
  ∃ u ∈ valid_uris,
    (link.map tolowerB).take u.length = u.map tolowerB ∧
      u.length < link.length ∧ isalnumB (link.getD u.length 0) = true

/-! ### Link-reference table (`hash_link_ref`, `add_link_ref`, `find_link_ref`) -/

/-- `REF_TABLE_SIZE`: number of hash buckets. -/
def REF_TABLE_SIZE : Nat := 8

/-- `struct link_ref`: fingerprint plus owned url and optional title.
The label bytes themselves are not stored. -/
structure link_ref where
  id : Nat
  link : List Nat
  title : Option (List Nat)
deriving Repr, DecidableEq

/-- The bucket array, indexed by `hash % REF_TABLE_SIZE`; each bucket is
the chain from head to tail. -/
def RefTable : Type := Nat → List link_ref

/-- `hash_link_ref`: `hash = tolower(b) + (hash << 6) + (hash << 16) - hash`
over the label bytes, in 32-bit unsigned arithmetic.  The shifted
summands dominate `hash`, so the `Nat` subtraction agrees with the C
unsigned subtraction. -/
def hash_link_ref (name : List Nat) : Nat :=
  name.foldl (fun h b => (tolowerB b + (h <<< 6) + (h <<< 16) - h) % 2 ^ 32) 0

/-- `add_link_ref`: allocate a record carrying the label's fingerprint and
insert it at the head of its bucket chain.  The source inserts a zeroed
record and lets the caller (`is_ref`) fill `link` and `title` before the
table is next consulted; the model takes the payload as arguments. -/
def add_link_ref (refs : RefTable) (name : List Nat)
    (url : List Nat) (title : Option (List Nat)) : link_ref × RefTable :=
  let r : link_ref := { id := hash_link_ref name, link := url, title := title }
  (r, fun i => if i = r.id % REF_TABLE_SIZE then r :: refs i else refs i)

/-- The chain walk of `find_link_ref`: first record whose fingerprint
matches; the label bytes are never re-compared. -/
def chainFind : List link_ref → Nat → Option link_ref
  | [], _ => none
  | r :: rest, hash => if r.id = hash then some r else chainFind rest hash

/-- `find_link_ref`: hash the label and walk its bucket. -/
def find_link_ref (refs : RefTable) (name : List Nat) : Option link_ref :=
  chainFind (refs (hash_link_ref name % REF_TABLE_SIZE)) (hash_link_ref name)

/-- Specification-side hash step: the polynomial
`(hash << 6) + (hash << 16) - hash + lower(b)` evaluated in the integers
and wrapped to 32 bits. -/
def hashStepSpec (h : Int) (b : Nat) : Int :=
  (h * 64 + h * 65536 - h + (tolowerB b : Int)) % 2 ^ 32

/-! ### Autolink delimiter balancing (`autolink_delim`)

`autolink_delim(data, link_end, max_rewind, size)` trims a candidate span:
a `<` truncates it, trailing punctuation and entity references are peeled,
and a final closing bracket or quote is dropped when its pair does not
balance across the span.  `max_rewind` and `size` are unused in the body,
as in the source. -/

/-- The initial loop of `autolink_delim`: truncate the span at the first
`<`, if any. -/
def delimAngle (data : List Nat) (link_end : Nat) : Nat :=
  match (data.take link_end).findIdx? (· == 60) with
  | some i => i
  | none => link_end

/-- The backward scan of the entity-peeling branch:
`while (new_end > 0 && isalpha(data[new_end])) new_end--;`. -/
def entityBack (data : List Nat) : Nat → Nat
  | 0 => 0
  | n + 1 => if isalphaB (data.getD (n + 1) 0) then entityBack data n else n + 1

/-- The peel loop of `autolink_delim`.  `strchr("?!.,", c)` also matches
the terminating NUL, so byte 0 is peeled as well.  When the last byte is
`;`, the source sets `new_end = link_end - 2` in `size_t` arithmetic;
for `link_end < 2` that underflows and the subsequent `data[new_end]`
read is out of bounds, so that corner is modelled as the non-entity
branch (`link_end--`). -/
def delimPeel (data : List Nat) (link_end : Nat) : Nat :=
  if link_end = 0 then 0
  else
    let c := data.getD (link_end - 1) 0
    if c = 63 ∨ c = 33 ∨ c = 46 ∨ c = 44 ∨ c = 0 then delimPeel data (link_end - 1)
    else if c = 59 then
      if link_end < 2 then delimPeel data (link_end - 1)
      else
        let new_end := entityBack data (link_end - 2)
        if h : new_end < link_end - 2 ∧ data.getD new_end 0 = 38 then
          delimPeel data new_end
        else delimPeel data (link_end - 1)
    else link_end
  termination_by link_end
  decreasing_by all_goals omega

/-- The counting loop of the balancing phase: occurrences of the opening
and of the closing byte across the span (the `else if` keeps an opening
byte equal to the closing byte from being counted twice). -/
def countPair : List Nat → Nat → Nat → Nat × Nat
  | [], _, _ => (0, 0)
  | b :: rest, copen, cclose =>
      let r := countPair rest copen cclose
      if b = copen then (r.1 + 1, r.2)
      else if b = cclose then (r.1, r.2 + 1)
      else r

/-- The `switch (cclose)` table mapping a closing byte to its opening
partner (0 when the byte closes nothing). -/
def copenOf (cclose : Nat) : Nat :=
  if cclose = 34 then 34
  else if cclose = 39 then 39
  else if cclose = 41 then 40
  else if cclose = 93 then 91
  else if cclose = 125 then 123
  else 0

/-- `autolink_delim`. -/
def autolink_delim (data : List Nat) (link_end max_rewind size : Nat) : Nat :=
  let le1 := delimAngle data link_end
  let le2 := delimPeel data le1
  if le2 = 0 then 0
  else
    let cclose := data.getD (le2 - 1) 0
    let copen := copenOf cclose
    if copen ≠ 0 then
      let oc := countPair (data.take le2) copen cclose
      if oc.2 ≠ oc.1 then le2 - 1 else le2
    else le2

/-- The balance phase as the claim words it: on a count mismatch the span
shrinks by one and the check is re-run on the shrunk span. -/
def delimRetest (data : List Nat) : Nat → Nat
  | 0 => 0
  | le + 1 =>
      let cclose := data.getD le 0
      let copen := copenOf cclose
      if copen ≠ 0 then
        let oc := countPair (data.take (le + 1)) copen cclose
        if oc.2 ≠ oc.1 then delimRetest data le else le + 1
      else le + 1

/-- `autolink_delim` as claimed: peel, then re-testing balance check. -/
def autolinkDelimClaimed (data : List Nat) (link_end : Nat) : Nat :=
  delimRetest data (delimPeel data (delimAngle data link_end))

/-! ### Entity recognizer (`char_entity`) -/

/-- `char_entity`: returns the number of bytes consumed and dispatched to
the `entity` callback (`&`, an optional `#`, a run of alphanumerics, then
`;`), or 0 when the cursor does not end up on a `;`, in which case the
`&` passes through as normal text. -/
def char_entity (data : List Nat) : Nat :=
  let size := data.length
  let end1 := 1
  let end2 := if end1 < size ∧ data.getD end1 0 = 35 then end1 + 1 else end1
  let end3 := end2 + ((data.drop end2).takeWhile isalnumB).length
  if end3 < size ∧ data.getD end3 0 = 59 then end3 + 1 else 0

/-- The pattern `&#?[A-Za-z0-9]+;` at the cursor, as the claim (and the
comment above `char_entity`) states it: at least one alphanumeric byte is
required. -/
def entityClaimMatch (data : List Nat) : Bool :=
  data.getD 0 0 == 38 &&
    (let rest := if data.getD 1 0 == 35 then data.drop 2 else data.drop 1
     let run := rest.takeWhile isalnumB
     decide (1 ≤ run.length) && rest.getD run.length 0 == 59)

/-! ### Code-span recognizer (`char_codespan`)

The observable behaviour of `char_codespan` (with a `codespan` callback
that handles the span): either no matching delimiter is found and nothing
is consumed, or `consumed` bytes are consumed and the callback receives
`content` (`none` models the NULL work buffer of the all-whitespace
case). -/

/-- Result of a `char_codespan` invocation. -/
inductive CodespanOut where
  | noMatch : CodespanOut
  | span (consumed : Nat) (content : Option (List Nat)) : CodespanOut
deriving Repr, DecidableEq

/-- The opening-delimiter count:
`while (nb < size && data[nb] == '\x60') nb++;`. -/
def tickRun : List Nat → Nat
  | [] => 0
  | b :: rest => if b = 96 then tickRun rest + 1 else 0

/-- The delimiter search of `char_codespan`:
`for (end = nb; end < size && i < nb; end++) ...` over the suffix
`data.drop e`, returning the final `(end, i)`.  `i` counts consecutive
backticks and resets on any other byte. -/
def csScan : List Nat → Nat → Nat → Nat → Nat × Nat
  | [], _, i, e => (e, i)
  | b :: rest, nb, i, e =>
      if i < nb then csScan rest nb (if b = 96 then i + 1 else 0) (e + 1)
      else (e, i)

/-- The leading-whitespace trim of `char_codespan`, with the loop bound
`f_begin < end` carried as the structural count `fuel = e - f_begin`:
`f_begin = nb; while (f_begin < end && data[f_begin] == ' ') f_begin++;`. -/
def fBeginGo (data : List Nat) : Nat → Nat → Nat
  | b, 0 => b
  | b, fuel + 1 => if data.getD b 0 = 32 then fBeginGo data (b + 1) fuel else b

/-- `f_begin` after the leading trim, scanning `[b, e)`. -/
def fBegin (data : List Nat) (b e : Nat) : Nat := fBeginGo data b (e - b)

/-- The trailing-whitespace trim, with the loop bound `f_end > nb` carried
as the structural count `fuel = f_end - nb`:
`f_end = end - nb; while (f_end > nb && data[f_end-1] == ' ') f_end--;`. -/
def fEndGo (data : List Nat) : Nat → Nat → Nat
  | f, 0 => f
  | f, fuel + 1 => if data.getD (f - 1) 0 = 32 then fEndGo data (f - 1) fuel else f

/-- `f_end` after the trailing trim, scanning down from `f` to `nb`. -/
def fEnd (data : List Nat) (nb f : Nat) : Nat := fEndGo data f (f - nb)

/-- `char_codespan` (the `codespan` callback is taken to handle the
span, so the source's `end = 0` fallback on a refusing callback is not
reached). -/
def char_codespan (data : List Nat) : CodespanOut :=
  let size := data.length
  let nb := tickRun data
  let ei := csScan (data.drop nb) nb 0 nb
  if ei.2 < nb ∧ size ≤ ei.1 then .noMatch
  else
    let fb := fBegin data nb ei.1
    let fe := fEnd data nb (ei.1 - nb)
    if fb < fe then .span ei.1 (some ((data.take fe).drop fb))
    else .span ei.1 none

/-- Trim of a single space on each side, as the claim words it. -/
def trimOne (l : List Nat) : List Nat :=
  let l1 := if l.getD 0 0 = 32 then l.drop 1 else l
  if l1.getD (l1.length - 1) 0 = 32 then l1.dropLast else l1

/-- Positions `p` at which a maximal backtick run of length exactly `nb`
starts, strictly after the opening run. -/
def exactRunAt (data : List Nat) (nb p : Nat) : Bool :=
  decide (tickRun data ≤ p) && (((data.drop p).takeWhile (· == 96)).length == nb) &&
    !((data.getD (p - 1) 0 == 96) && decide (1 ≤ p))

/-- `char_codespan` as the claim states it: the opening run of `N`
backticks is matched against the first later maximal run of exactly `N`
backticks, and the interior is trimmed of one whitespace byte on each
side (`none` when it comes out empty). -/
def codespanClaimed (data : List Nat) : CodespanOut :=
  let nb := tickRun data
  match (List.range data.length).find? (exactRunAt data nb) with
  | none => .noMatch
  | some p =>
      let content := trimOne ((data.take p).drop nb)
      .span (p + nb) (if content.isEmpty then none else some content)

/-- All-spaces trim (both sides), for the amended claim. -/
def trimSpaces (l : List Nat) : List Nat :=
  ((l.dropWhile (· == 32)).reverse.dropWhile (· == 32)).reverse

/-- `e` is a closing position: the `nb` bytes before `e` are all
backticks and lie strictly after the opening run. -/
def isCloseAt (data : List Nat) (nb e : Nat) : Bool :=
  decide (2 * nb ≤ e) && ((data.take e).drop (e - nb) == List.replicate nb 96)

/-- The least closing position, if any. -/
def closeEnd (data : List Nat) (nb : Nat) : Option Nat :=
  (List.range (data.length + 1)).find? (isCloseAt data nb)

/-- `char_codespan` as amended: the opening run is matched against the
first later occurrence of `nb` consecutive backticks (even inside a
longer run), and the interior is trimmed of all leading and trailing
space bytes (`none` when nothing remains). -/
def codespanAmended (data : List Nat) : CodespanOut :=
  let nb := tickRun data
  match closeEnd data nb with
  | none => .noMatch
  | some e =>
      let content := trimSpaces ((data.take (e - nb)).drop nb)
      .span e (if content.isEmpty then none else some content)

/-- A buffer whose allocation legitimately exceeds the 16 MiB cap:
freshly created with `unit = cap - 1` and grown once to `cap`, which the
quantum loop rounds up to `2 * cap - 2`. -/
def c8buf : sd_buf :=
  (sd_bufgrow { data := [], asize := 0, unit := BUFFER_MAX_ALLOC_SIZE - 1 }
    BUFFER_MAX_ALLOC_SIZE).2

/-- An append of one byte more than the cap. -/
def c8bytes : List Nat := List.replicate (BUFFER_MAX_ALLOC_SIZE + 1) 0

/-- A buffer filled exactly to the cap. -/
def c8fullbuf : sd_buf :=
  { data := List.replicate BUFFER_MAX_ALLOC_SIZE 0,
    asize := BUFFER_MAX_ALLOC_SIZE, unit := 1 }

/-! ## The rendering engine

The remaining definitions embed the whole two-phase parser, for the
whole-render claims (scratch-pool balance, re-render determinism).

Modelling conventions, used consistently below:
* a `uint8_t *data, size_t size` pair is a `List Nat` holding exactly the
  `size` bytes; functions that index before `data` (via `max_rewind` or
  `offset`) instead receive the enclosing buffer `full` plus the cursor
  `off`, so `data[k]` is `full.getD (off + k) 0` and `data[-j]` is
  `full.getD (off - j) 0`;
* allocation always succeeds, and buffers hold their contents by value:
  `rndr_newbuf` returns an empty buffer (a fresh one, or a cached one
  whose size is reset to 0 — indistinguishable by value) and bumps the
  pool counter; `rndr_popbuf` decrements it;
* renderer callbacks are external (spec §6) and are modelled as pure,
  append-only functions: each returns the bytes it appends to its output
  buffer (span callbacks also return their handled flag);
* every C loop is either a pure structural scan or consumes one unit of
  the engine fuel per iteration; exhausted fuel aborts the parse with the
  state untouched (reachable only below the fuel computed by the driver,
  and quantified over by the theorems). -/

/-- C `isspace` (C locale): HT, LF, VT, FF, CR, space. -/
def isspaceB (b : Nat) : Bool :=
  decide (b = 9 ∨ b = 10 ∨ b = 11 ∨ b = 12 ∨ b = 13 ∨ b = 32)

/-- C `ispunct` (C locale): printable, not alphanumeric, not space. -/
def ispunctB (b : Nat) : Bool :=
  decide ((33 ≤ b ∧ b ≤ 47) ∨ (58 ≤ b ∧ b ≤ 64) ∨ (91 ≤ b ∧ b ≤ 96)
    ∨ (123 ≤ b ∧ b ≤ 126))

/-- The parser's `_isspace`: space or newline. -/
def under_isspace (b : Nat) : Bool := decide (b = 32 ∨ b = 10)

/-- Generic index scan with an explicit step count:
`while (i < stop && p i) i++` where `fuel = stop - i`. -/
def scanFrom (p : Nat → Bool) : Nat → Nat → Nat
  | i, 0 => i
  | i, fuel + 1 => if p i then scanFrom p (i + 1) fuel else i

/-- `while (i < stop && p i) i++;` returning the final `i`. -/
def scanWhile (p : Nat → Bool) (i stop : Nat) : Nat := scanFrom p i (stop - i)

/-- Byte fetch helper: `data[i]` with the C out-of-bounds reads of this
translation-unit never occurring (all scans are bounds-checked first). -/
def byteAt (data : List Nat) (i : Nat) : Nat := data.getD i 0

/-! ### Pure line scanners (block helpers) -/

/-- `is_empty`: length of the line when blank, 0 otherwise. -/
def is_empty (data : List Nat) : Nat :=
  let size := data.length
  let i := scanWhile (fun i => decide (byteAt data i ≠ 10) && decide (byteAt data i = 32)) 0 size
  if i < size ∧ byteAt data i ≠ 10 then 0 else i + 1

/-- `is_hrule`: whether the line is a horizontal rule. -/
def is_hrule (data : List Nat) : Bool :=
  let size := data.length
  if size < 3 then false
  else
    let i0 : Nat := if byteAt data 0 = 32 then
        (if byteAt data 1 = 32 then (if byteAt data 2 = 32 then 3 else 2) else 1)
      else 0
    if i0 + 2 ≥ size ∨ (byteAt data i0 ≠ 42 ∧ byteAt data i0 ≠ 45 ∧ byteAt data i0 ≠ 95)
    then false
    else
      let c := byteAt data i0
      let stop := scanWhile (fun i =>
        decide (byteAt data i ≠ 10) &&
          (decide (byteAt data i = c) || decide (byteAt data i = 32))) i0 size
      if stop < size ∧ byteAt data stop ≠ 10 then false
      else
        let n := ((data.take stop).drop i0).count c
        decide (3 ≤ n)

/-- `prefix_codefence`: width of a leading code fence, 0 otherwise. -/
def prefix_codefence (data : List Nat) : Nat :=
  let size := data.length
  if size < 3 then 0
  else
    let i0 : Nat := if byteAt data 0 = 32 then
        (if byteAt data 1 = 32 then (if byteAt data 2 = 32 then 3 else 2) else 1)
      else 0
    if i0 + 2 ≥ size ∨ (byteAt data i0 ≠ 126 ∧ byteAt data i0 ≠ 96) then 0
    else
      let c := byteAt data i0
      let i := scanWhile (fun i => decide (byteAt data i = c)) i0 size
      if i - i0 < 3 then 0 else i

/-- `is_codefence`: total fence-line length and the syntax slice. -/
def is_codefence (data : List Nat) : Nat × List Nat :=
  let size := data.length
  let i0 := prefix_codefence data
  if i0 = 0 then (0, [])
  else
    let i1 := scanWhile (fun i => decide (byteAt data i = 32)) i0 size
    if i1 < size ∧ byteAt data i1 = 123 then
      let i2 := i1 + 1
      let i3 := scanWhile (fun i =>
        decide (byteAt data i ≠ 125) && decide (byteAt data i ≠ 10)) i2 size
      if i3 = size ∨ byteAt data i3 ≠ 125 then (0, [])
      else
        let raw := (data.take i3).drop i2
        let syn := ((raw.dropWhile under_isspace).reverse.dropWhile
            under_isspace).reverse
        let i4 := i3 + 1
        let i5 := scanWhile (fun i => decide (byteAt data i ≠ 10)) i4 size
        let bad := ((data.take i5).drop i4).any fun b => !under_isspace b
        if bad then (0, []) else (i5 + 1, syn)
    else
      let i3 := scanWhile (fun i => !under_isspace (byteAt data i)) i1 size
      let syn := (data.take i3).drop i1
      let i5 := scanWhile (fun i => decide (byteAt data i ≠ 10)) i3 size
      let bad := ((data.take i5).drop i3).any fun b => !under_isspace b
      if bad then (0, []) else (i5 + 1, syn)

/-- `is_headerline`: setext underline level (1 for `=`, 2 for `-`, else 0). -/
def is_headerline (data : List Nat) : Nat :=
  let size := data.length
  if byteAt data 0 = 61 then
    let i := scanWhile (fun i => decide (byteAt data i = 61)) 1 size
    let j := scanWhile (fun i => decide (byteAt data i = 32)) i size
    if j ≥ size ∨ byteAt data j = 10 then 1 else 0
  else if byteAt data 0 = 45 then
    let i := scanWhile (fun i => decide (byteAt data i = 45)) 1 size
    let j := scanWhile (fun i => decide (byteAt data i = 32)) i size
    if j ≥ size ∨ byteAt data j = 10 then 2 else 0
  else 0

/-- `is_next_headerline`: setext underline on the following line. -/
def is_next_headerline (data : List Nat) : Nat :=
  let size := data.length
  let i := scanWhile (fun i => decide (byteAt data i ≠ 10)) 0 size
  if i + 1 ≥ size then 0
  else is_headerline (data.drop (i + 1))

/-- `prefix_quote`: blockquote prefix length. -/
def prefix_quote (data : List Nat) : Nat :=
  let size := data.length
  let i0 : Nat := min (scanWhile (fun i => decide (byteAt data i = 32)) 0 size) 3
  if i0 < size ∧ byteAt data i0 = 62 then
    if i0 + 1 < size ∧ byteAt data (i0 + 1) = 32 then i0 + 2 else i0 + 1
  else 0

/-- `prefix_code`: indented-code prefix length. -/
def prefix_code (data : List Nat) : Nat :=
  if 3 < data.length ∧ byteAt data 0 = 32 ∧ byteAt data 1 = 32
      ∧ byteAt data 2 = 32 ∧ byteAt data 3 = 32 then 4 else 0

/-- `prefix_oli`: ordered-list-item prefix length. -/
def prefix_oli (data : List Nat) : Nat :=
  let size := data.length
  let i0 : Nat := min (scanWhile (fun i => decide (byteAt data i = 32)) 0 size) 3
  if i0 ≥ size ∨ byteAt data i0 < 48 ∨ 57 < byteAt data i0 then 0
  else
    let i := scanWhile (fun i =>
      decide (48 ≤ byteAt data i) && decide (byteAt data i ≤ 57)) i0 size
    if i + 1 ≥ size ∨ byteAt data i ≠ 46 ∨ byteAt data (i + 1) ≠ 32 then 0
    else if is_next_headerline (data.drop i) ≠ 0 then 0
    else i + 2

/-- `prefix_uli`: unordered-list-item prefix length. -/
def prefix_uli (data : List Nat) : Nat :=
  let size := data.length
  let i0 : Nat := min (scanWhile (fun i => decide (byteAt data i = 32)) 0 size) 3
  if i0 + 1 ≥ size
      ∨ (byteAt data i0 ≠ 42 ∧ byteAt data i0 ≠ 43 ∧ byteAt data i0 ≠ 45)
      ∨ byteAt data (i0 + 1) ≠ 32 then 0
  else if is_next_headerline (data.drop i0) ≠ 0 then 0
  else i0 + 2

/-! ### Autolink and tag scanners (pure) -/

/-- Autolink kinds (`enum mkd_autolink`). -/
inductive mkd_autolink where
  | MKDA_NOT_AUTOLINK : mkd_autolink
  | MKDA_NORMAL : mkd_autolink
  | MKDA_EMAIL : mkd_autolink
deriving Repr, DecidableEq

/-- The loop of `is_mail_autolink`, with `nb` counting `@` signs. -/
def is_mail_autolink_go (data : List Nat) : Nat → Nat → Nat → Nat
  | _, _, 0 => 0
  | i, nb, fuel + 1 =>
      let c := byteAt data i
      if isalnumB c then is_mail_autolink_go data (i + 1) nb fuel
      else if c = 64 then is_mail_autolink_go data (i + 1) (nb + 1) fuel
      else if c = 45 ∨ c = 46 ∨ c = 95 then is_mail_autolink_go data (i + 1) nb fuel
      else if c = 62 then (if nb = 1 then i + 1 else 0)
      else 0

/-- `is_mail_autolink`: length of `[-@._a-zA-Z0-9]+>` with exactly one `@`. -/
def is_mail_autolink (data : List Nat) : Nat :=
  is_mail_autolink_go data 0 0 data.length

/-- The escape-skipping scan of `tag_length`'s autolink branch
(`\\` skips two bytes; `>`, `'`, `"`, space or newline stops). -/
def tagAutolinkScan (data : List Nat) : Nat → Nat → Nat
  | i, 0 => i
  | i, fuel + 1 =>
      if i < data.length then
        let c := byteAt data i
        if c = 92 then tagAutolinkScan data (i + 2) fuel
        else if c = 62 ∨ c = 39 ∨ c = 34 ∨ c = 32 ∨ c = 10 then i
        else tagAutolinkScan data (i + 1) fuel
      else i

/-- The final `>`-search of `tag_length` (plain raw-tag case). -/
def tag_length_end (data : List Nat) (k : Nat) : Nat × mkd_autolink :=
  let m := scanWhile (fun i => decide (byteAt data i ≠ 62)) k data.length
  if m ≥ data.length then (0, .MKDA_NOT_AUTOLINK) else (m + 1, .MKDA_NOT_AUTOLINK)

/-- `tag_length`: length of the tag at the cursor and its autolink kind. -/
def tag_length (data : List Nat) : Nat × mkd_autolink :=
  let size := data.length
  if size < 3 then (0, .MKDA_NOT_AUTOLINK)
  else if byteAt data 0 ≠ 60 then (0, .MKDA_NOT_AUTOLINK)
  else
    let i0 : Nat := if byteAt data 1 = 47 then 2 else 1
    if !isalnumB (byteAt data i0) then (0, .MKDA_NOT_AUTOLINK)
    else
      let i := scanWhile (fun k => isalnumB (byteAt data k)
        || decide (byteAt data k = 46) || decide (byteAt data k = 43)
        || decide (byteAt data k = 45)) i0 size
      let j0 := if 1 < i ∧ byteAt data i = 64 then is_mail_autolink (data.drop i) else 0
      if j0 ≠ 0 then (i + j0, .MKDA_EMAIL)
      else
        let norm := 2 < i ∧ byteAt data i = 58
        let i2 := if norm then i + 1 else i
        if i2 ≥ size then tag_length_end data i2
        else if norm then
          let i3 := tagAutolinkScan data i2 size
          if i3 ≥ size then (0, .MKDA_NOT_AUTOLINK)
          else if i2 < i3 ∧ byteAt data i3 = 62 then (i3 + 1, .MKDA_NORMAL)
          else tag_length_end data i3
        else tag_length_end data i2

/-- `check_domain`: longest run of domain bytes (strict mode requires a
dot). -/
def check_domain (data : List Nat) (allow_short : Bool) : Nat :=
  if !isalnumB (byteAt data 0) then 0
  else
    let i := scanWhile (fun k => decide (byteAt data k = 46)
      || isalnumB (byteAt data k) || decide (byteAt data k = 45)) 1 (data.length - 1)
    let np := ((data.take i).drop 1).count 46
    if allow_short then i else if np = 0 then 0 else i

/-- `sd_autolink__www`: `(link_end, rewind, link bytes)`; zero `link_end`
means no match. -/
def sd_autolink__www (full : List Nat) (off : Nat) : Nat × Nat × List Nat :=
  let size := full.length - off
  if 0 < off ∧ !ispunctB (byteAt full (off - 1)) ∧ !isspaceB (byteAt full (off - 1))
  then (0, 0, [])
  else if size < 4 ∨ (full.drop off).take 4 ≠ [119, 119, 119, 46] then (0, 0, [])
  else
    let le0 := check_domain (full.drop off) false
    if le0 = 0 then (0, 0, [])
    else
      let le1 := scanWhile (fun k => !isspaceB (byteAt full (off + k))) le0 size
      let le2 := autolink_delim (full.drop off) le1 off size
      if le2 = 0 then (0, 0, [])
      else (le2, 0, (full.drop off).take le2)

/-- The address loop of `sd_autolink__email`, counting `@` and `.`. -/
def emailScan (full : List Nat) (off : Nat) : Nat → Nat → Nat → Nat → Nat × Nat × Nat
  | i, nb, np, 0 => (i, nb, np)
  | i, nb, np, fuel + 1 =>
      let c := byteAt full (off + i)
      if isalnumB c then emailScan full off (i + 1) nb np fuel
      else if c = 64 then emailScan full off (i + 1) (nb + 1) np fuel
      else if c = 46 ∧ i < full.length - off - 1 then
        emailScan full off (i + 1) nb (np + 1) fuel
      else if c = 45 ∨ c = 95 then emailScan full off (i + 1) nb np fuel
      else (i, nb, np)

/-- `sd_autolink__email`.  In the rewind scan the source tests
`strchr(".+-_", c)`, which also matches the terminating NUL, so byte 0
keeps the scan going. -/
def sd_autolink__email (full : List Nat) (off : Nat) : Nat × Nat × List Nat :=
  let size := full.length - off
  let rewind := scanWhile (fun r =>
    isalnumB (byteAt full (off - r - 1)) || decide (byteAt full (off - r - 1) = 46)
      || decide (byteAt full (off - r - 1) = 43)
      || decide (byteAt full (off - r - 1) = 45)
      || decide (byteAt full (off - r - 1) = 95)
      || decide (byteAt full (off - r - 1) = 0)) 0 off
  if rewind = 0 then (0, 0, [])
  else
    let le := emailScan full off 0 0 0 size
    if le.1 < 2 ∨ le.2.1 ≠ 1 ∨ le.2.2 = 0
        ∨ !isalphaB (byteAt full (off + le.1 - 1)) then (0, 0, [])
    else
      let le2 := autolink_delim (full.drop off) le.1 off size
      if le2 = 0 then (0, 0, [])
      else (le2, rewind, (full.drop (off - rewind)).take (le2 + rewind))

/-- `sd_autolink__url` (the render always passes `flags = 0`, so the
short-domain mode is off). -/
def sd_autolink__url (full : List Nat) (off : Nat) : Nat × Nat × List Nat :=
  let size := full.length - off
  if size < 4 ∨ byteAt full (off + 1) ≠ 47 ∨ byteAt full (off + 2) ≠ 47 then (0, 0, [])
  else
    let rewind := scanWhile (fun r => isalphaB (byteAt full (off - r - 1))) 0 off
    if !sd_autolink_issafe (full.drop (off - rewind)) then (0, 0, [])
    else
      let domain_len := check_domain (full.drop (off + 3)) false
      if domain_len = 0 then (0, 0, [])
      else
        let le1 := scanWhile (fun k => !isspaceB (byteAt full (off + k)))
          (3 + domain_len) size
        let le2 := autolink_delim (full.drop off) le1 off size
        if le2 = 0 then (0, 0, [])
        else (le2, rewind, (full.drop (off - rewind)).take (le2 + rewind))

/-! ### HTML block-tag table (gperf) -/

/-- `asso_values` of the perfect hash (entries past index 119 are all 38). -/
def assoList : List Nat :=
  [38, 38, 38, 38, 38, 38, 38, 38, 38, 38,
   38, 38, 38, 38, 38, 38, 38, 38, 38, 38,
   38, 38, 38, 38, 38, 38, 38, 38, 38, 38,
   38, 38, 38, 38, 38, 38, 38, 38, 38, 38,
   38, 38, 38, 38, 38, 38, 38, 38, 38, 38,
   8, 30, 25, 20, 15, 10, 38, 38, 38, 38,
   38, 38, 38, 38, 38, 38, 0, 38, 0, 38,
   5, 5, 5, 15, 0, 38, 38, 0, 15, 10,
   0, 38, 38, 15, 0, 5, 38, 38, 38, 38,
   38, 38, 38, 38, 38, 38, 38, 38, 0, 38,
   0, 38, 5, 5, 5, 15, 0, 38, 38, 0,
   15, 10, 0, 38, 38, 15, 0, 5, 38, 38]

/-- `asso_values` lookup. -/
def asso_values (i : Nat) : Nat := assoList.getD i 38

/-- `hash_block_tag`. -/
def hash_block_tag (str : List Nat) (len : Nat) : Nat :=
  if len = 1 then len + asso_values (byteAt str 0)
  else len + asso_values (byteAt str 1 + 1) + asso_values (byteAt str 0)

/-- The gperf `wordlist` (38 slots, blanks are empty). -/
def wordlist : List (List Nat) :=
  [[],
   [112],
   [100, 108],
   [100, 105, 118],
   [109, 97, 116, 104],
   [116, 97, 98, 108, 101],
   [],
   [117, 108],
   [100, 101, 108],
   [102, 111, 114, 109],
   [98, 108, 111, 99, 107, 113, 117, 111, 116, 101],
   [102, 105, 103, 117, 114, 101],
   [111, 108],
   [102, 105, 101, 108, 100, 115, 101, 116],
   [],
   [104, 49],
   [],
   [104, 54],
   [112, 114, 101],
   [], [],
   [115, 99, 114, 105, 112, 116],
   [104, 53],
   [110, 111, 115, 99, 114, 105, 112, 116],
   [],
   [115, 116, 121, 108, 101],
   [105, 102, 114, 97, 109, 101],
   [104, 52],
   [105, 110, 115],
   [], [], [],
   [104, 51],
   [], [], [], [],
   [104, 50]]

/-- `gperf_case_strncmp(s1, s2, n) == 0` (bytes past a list's end read as
the NUL terminator). -/
def gperfCaseEq : List Nat → List Nat → Nat → Bool
  | _, _, 0 => true
  | s1, s2, n + 1 =>
      let c1 := tolowerB (byteAt s1 0)
      let c2 := tolowerB (byteAt s2 0)
      if c1 ≠ 0 ∧ c1 = c2 then gperfCaseEq (s1.drop 1) (s2.drop 1) n
      else decide (c1 = c2)

/-- `find_block_tag`: the recognized lowercase block tag, if any. -/
def find_block_tag (str : List Nat) (len : Nat) : Option (List Nat) :=
  if 1 ≤ len ∧ len ≤ 10 then
    let key := hash_block_tag str len
    if key ≤ 37 then
      let s := wordlist.getD key []
      if (Nat.xor (byteAt str 0) (byteAt s 0)) &&& 223 = 0 ∧ gperfCaseEq str s len
          ∧ byteAt s len = 0
      then some s else none
    else none
  else none

/-! ### HTML block end scan -/

/-- `htmlblock_end_tag`: length through the closing tag and its blank
line(s), 0 when the tag does not match here. -/
def htmlblock_end_tag (tag : List Nat) (data : List Nat) : Nat :=
  let size := data.length
  let tag_len := tag.length
  if tag_len + 3 ≥ size ∨ !strncaseEq (data.drop 2) tag tag_len
      ∨ byteAt data (tag_len + 2) ≠ 62 then 0
  else
    let i := tag_len + 3
    let w := if i < size then is_empty (data.drop i) else 0
    if i < size ∧ w = 0 then 0
    else
      let i2 := i + w
      let w2 := if i2 < size then is_empty (data.drop i2) else 0
      i2 + w2

/-- The closing-tag search loop of `htmlblock_end`; `bl` counts newlines
passed, and `sol` restricts matches to unindented tags. -/
def htmlblock_end_go (tag data : List Nat) (sol : Bool) : Nat → Nat → Nat → Nat
  | _, _, 0 => 0
  | i, bl, fuel + 1 =>
      let size := data.length
      if i < size then
        let i1 := i + 1
        let i2 := scanWhile (fun k =>
          !(decide (byteAt data (k - 1) = 60) && decide (byteAt data k = 47))) i1 size
        let bl2 := bl + ((data.take i2).drop i1).count 10
        if sol ∧ 0 < bl2 ∧ byteAt data (i2 - 2) ≠ 10 then
          htmlblock_end_go tag data sol i2 bl2 fuel
        else if i2 + 2 + tag.length ≥ size then 0
        else
          let et := htmlblock_end_tag tag (data.drop (i2 - 1))
          if et ≠ 0 then i2 + et - 1
          else htmlblock_end_go tag data sol i2 bl2 fuel
      else 0

/-- `htmlblock_end`. -/
def htmlblock_end (tag data : List Nat) (sol : Bool) : Nat :=
  htmlblock_end_go tag data sol 1 0 (data.length + 1)

/-- `parse_htmlblock`, length part (independent of rendering): size of
the HTML block at the cursor, 0 when there is none. -/
def parse_htmlblock_len (data : List Nat) : Nat :=
  let size := data.length
  if size < 2 ∨ byteAt data 0 ≠ 60 then 0
  else
    let i := scanWhile (fun k =>
      decide (byteAt data k ≠ 62) && decide (byteAt data k ≠ 32)) 1 size
    let curtag := if i < size then find_block_tag ((data.drop 1).take (i - 1)) (i - 1)
      else none
    match curtag with
    | some tag =>
        let te1 := htmlblock_end tag data true
        let te := if te1 = 0 ∧ tag ≠ [105, 110, 115] ∧ tag ≠ [100, 101, 108] then
            htmlblock_end tag data false
          else te1
        te
    | none =>
        let cj : Nat :=
          if 5 < size ∧ byteAt data 1 = 33 ∧ byteAt data 2 = 45 ∧ byteAt data 3 = 45 then
            let i2 := scanWhile (fun k =>
              !(decide (byteAt data (k - 2) = 45) && decide (byteAt data (k - 1) = 45)
                && decide (byteAt data k = 62))) 5 size
            let i3 := i2 + 1
            let j := if i3 < size then is_empty (data.drop i3) else 0
            if j ≠ 0 then i3 + j else 0
          else 0
        if cj ≠ 0 then cj
        else if 4 < size ∧ (byteAt data 1 = 104 ∨ byteAt data 1 = 72)
            ∧ (byteAt data 2 = 114 ∨ byteAt data 2 = 82) then
          let i2 := scanWhile (fun k => decide (byteAt data k ≠ 62)) 3 size
          if i2 + 1 < size then
            let i3 := i2 + 1
            let j := is_empty (data.drop i3)
            if j ≠ 0 then i3 + j else 0
          else 0
        else 0

/-! ### Mutable render state, callbacks and configuration -/

/-- `unscape_text`: drop each backslash, keeping the byte it escapes; a
trailing lone backslash is dropped (`if (i + 1 >= src->size) break;`). -/
def unscape_text : List Nat → List Nat
  | [] => []
  | b :: rest =>
      if b = 92 then
        match rest with
        | [] => []
        | c :: rest2 => c :: unscape_text rest2
      else b :: unscape_text rest

/-- The `escape_chars` string of `char_escape`. -/
def escape_chars : List Nat :=
  [92, 96, 42, 95, 123, 125, 91, 93, 40, 41, 35, 43, 45, 46, 33, 58, 124,
   38, 60, 62, 94, 126]

/-- The mutable fields of `struct sd_markdown` (`work_bufs[*].size`,
`in_link_body`, `refs`); the scratch buffers themselves carry no
cross-call information because `rndr_newbuf` resets a reused buffer's
size to 0. -/
structure MDMut where
  spanSize : Nat
  blockSize : Nat
  in_link_body : Bool
  refs : RefTable

/-- The empty reference table (all buckets clear). -/
def emptyRefs : RefTable := fun _ => []

/-- `rndr_newbuf(rndr, BUFFER_SPAN)`: bump the span pool counter (the
buffer handed out is empty). -/
def newbufSpan (st : MDMut) : MDMut := { st with spanSize := st.spanSize + 1 }

/-- `rndr_popbuf(rndr, BUFFER_SPAN)`. -/
def popbufSpan (st : MDMut) : MDMut := { st with spanSize := st.spanSize - 1 }

/-- `rndr_newbuf(rndr, BUFFER_BLOCK)`. -/
def newbufBlock (st : MDMut) : MDMut := { st with blockSize := st.blockSize + 1 }

/-- `rndr_popbuf(rndr, BUFFER_BLOCK)`. -/
def popbufBlock (st : MDMut) : MDMut := { st with blockSize := st.blockSize - 1 }

/-- `struct sd_callbacks`: each callback is external code (spec section on
the callback contract) modelled as a pure append-only function returning
the bytes it appends to its output buffer; span-level callbacks also
return their handled flag, and `none` stands for a NULL pointer.
Buffer-valued arguments that may be NULL are `Option`s. -/
structure SDCallbacks where
  blockcode : Option (List Nat → Option (List Nat) → List Nat)
  blockquote : Option (List Nat → List Nat)
  blockhtml : Option (List Nat → List Nat)
  header : Option (List Nat → Nat → List Nat)
  hrule : Option (List Nat)
  list : Option (List Nat → Nat → List Nat)
  listitem : Option (List Nat → Nat → List Nat)
  paragraph : Option (List Nat → List Nat)
  table : Option (List Nat → List Nat → List Nat)
  table_row : Option (List Nat → List Nat)
  table_cell : Option (List Nat → Nat → List Nat)
  autolink : Option (List Nat → mkd_autolink → Bool × List Nat)
  codespan : Option (Option (List Nat) → Bool × List Nat)
  double_emphasis : Option (List Nat → Bool × List Nat)
  emphasis : Option (List Nat → Bool × List Nat)
  image : Option (Option (List Nat) → Option (List Nat) → Option (List Nat) →
    Bool × List Nat)
  linebreak : Option (Bool × List Nat)
  link : Option (Option (List Nat) → Option (List Nat) → Option (List Nat) →
    Bool × List Nat)
  raw_html_tag : Option (List Nat → Bool × List Nat)
  triple_emphasis : Option (List Nat → Bool × List Nat)
  strikethrough : Option (List Nat → Bool × List Nat)
  superscript : Option (List Nat → Bool × List Nat)
  entity : Option (List Nat → List Nat)
  normal_text : Option (List Nat → List Nat)
  doc_header : Option (List Nat)
  doc_footer : Option (List Nat)

/-- The immutable part of a parser context as built by `sd_markdown_new`:
callbacks, extension bits (`MKDEXT_*`) and the nesting limit. -/
structure MDCfg where
  cb : SDCallbacks
  ext_flags : Nat
  max_nesting : Nat

/-- The `active_char` dispatch table as `sd_markdown_new` fills it
(`MD_CHAR_NONE = 0` through `MD_CHAR_SUPERSCRIPT = 11`). -/
def active_char (cfg : MDCfg) (b : Nat) : Nat :=
  let anyEmph := cfg.cb.emphasis.isSome || cfg.cb.double_emphasis.isSome
    || cfg.cb.triple_emphasis.isSome
  if b = 42 ∨ b = 95 then (if anyEmph then 1 else 0)
  else if b = 126 then
    (if anyEmph ∧ cfg.ext_flags &&& 16 ≠ 0 then 1 else 0)
  else if b = 96 then (if cfg.cb.codespan.isSome then 2 else 0)
  else if b = 10 then (if cfg.cb.linebreak.isSome then 3 else 0)
  else if b = 91 then
    (if cfg.cb.image.isSome ∨ cfg.cb.link.isSome then 4 else 0)
  else if b = 60 then 5
  else if b = 92 then 6
  else if b = 38 then 7
  else if b = 58 then (if cfg.ext_flags &&& 8 ≠ 0 then 8 else 0)
  else if b = 64 then (if cfg.ext_flags &&& 8 ≠ 0 then 9 else 0)
  else if b = 119 then (if cfg.ext_flags &&& 8 ≠ 0 then 10 else 0)
  else if b = 94 then (if cfg.ext_flags &&& 128 ≠ 0 then 11 else 0)
  else 0

/-- `is_atxheader` (needs the context for `MKDEXT_SPACE_HEADERS`). -/
def is_atxheader (cfg : MDCfg) (data : List Nat) : Bool :=
  if byteAt data 0 ≠ 35 then false
  else if cfg.ext_flags &&& 64 ≠ 0 then
    let level := scanWhile (fun k => decide (byteAt data k = 35)) 0
      (min data.length 6)
    !(decide (level < data.length) && decide (byteAt data level ≠ 32))
  else true

/-! ### Non-recursive inline recognizers

Each `char_*` recognizer takes the output buffer contents, the mutable
state, the enclosing inline slice `full` and the cursor `off` (the C
`data` pointer is `full + off`, `offset` is `off`, `size` is
`full.length - off`), and returns the consumed byte count, the new output
contents and the new state. -/

/-- `while (e != 0 && p data[e-1]) e--;` with `fuel = e`. -/
def trimEndIf (p : Nat → Bool) (data : List Nat) : Nat → Nat → Nat
  | e, 0 => e
  | e, fuel + 1 =>
      if e ≠ 0 ∧ p (byteAt data (e - 1)) then trimEndIf p data (e - 1) fuel
      else e

/-- `while (e > lo && _isspace data[e]) e--;` with `fuel = e - lo`. -/
def trimBackSp (data : List Nat) : Nat → Nat → Nat
  | e, 0 => e
  | e, fuel + 1 =>
      if under_isspace (byteAt data e) then trimBackSp data (e - 1) fuel else e

/-- `while (e > lo && data[e] == ' ') e--;` with `fuel = e - lo`. -/
def backSp (data : List Nat) : Nat → Nat → Nat
  | e, 0 => e
  | e, fuel + 1 =>
      if byteAt data e = 32 then backSp data (e - 1) fuel else e

/-- `char_linebreak`: a newline after two spaces trims the trailing
spaces of the output and dispatches `linebreak` (active only when the
callback exists). -/
def char_linebreak_r (cfg : MDCfg) (ob : List Nat) (st : MDMut)
    (full : List Nat) (off : Nat) : Nat × List Nat × MDMut :=
  if off < 2 ∨ byteAt full (off - 1) ≠ 32 ∨ byteAt full (off - 2) ≠ 32 then
    (0, ob, st)
  else
    let ob1 := (ob.reverse.dropWhile (· == 32)).reverse
    match cfg.cb.linebreak with
    | some lb => (if lb.1 then 1 else 0, ob1 ++ lb.2, st)
    | none => (0, ob, st)

/-- `char_codespan` with its callback (active only when the callback
exists); reuses the pure recognizer. -/
def char_codespan_r (cfg : MDCfg) (ob : List Nat) (st : MDMut)
    (full : List Nat) (off : Nat) : Nat × List Nat × MDMut :=
  match char_codespan (full.drop off) with
  | .noMatch => (0, ob, st)
  | .span consumed content =>
      match cfg.cb.codespan with
      | some cs =>
          let r := cs content
          (if r.1 then consumed else 0, ob ++ r.2, st)
      | none => (0, ob, st)

/-- `char_escape`.  `strchr(escape_chars, c)` also matches the
terminating NUL, so byte 0 is escaped too; with a single byte left the
backslash itself is emitted; the return is always 2. -/
def char_escape_r (cfg : MDCfg) (ob : List Nat) (st : MDMut)
    (full : List Nat) (off : Nat) : Nat × List Nat × MDMut :=
  let data := full.drop off
  let size := data.length
  if 1 < size then
    if !(escape_chars.contains (byteAt data 1) || decide (byteAt data 1 = 0))
    then (0, ob, st)
    else
      let app := match cfg.cb.normal_text with
        | some nt => nt [byteAt data 1]
        | none => [byteAt data 1]
      (2, ob ++ app, st)
  else if size = 1 then (2, ob ++ [byteAt data 0], st)
  else (2, ob, st)

/-- `char_entity` with its callback; reuses the pure recognizer. -/
def char_entity_r (cfg : MDCfg) (ob : List Nat) (st : MDMut)
    (full : List Nat) (off : Nat) : Nat × List Nat × MDMut :=
  let e := char_entity (full.drop off)
  if e = 0 then (0, ob, st)
  else
    let chunk := (full.drop off).take e
    let app := match cfg.cb.entity with
      | some ent => ent chunk
      | none => chunk
    (e, ob ++ app, st)

/-- `char_langle_tag`: a valid tag is dispatched to `autolink` (through
an unescaping scratch buffer) or to `raw_html_tag`; a refusing or absent
callback passes the text through. -/
def char_langle_tag_r (cfg : MDCfg) (ob : List Nat) (st : MDMut)
    (full : List Nat) (off : Nat) : Nat × List Nat × MDMut :=
  let data := full.drop off
  let tl := tag_length data
  let e := tl.1
  if 2 < e then
    let raw : Bool × List Nat × MDMut :=
      match cfg.cb.raw_html_tag with
      | some rh =>
          let r := rh (data.take e)
          (r.1, ob ++ r.2, st)
      | none => (false, ob, st)
    let out : Bool × List Nat × MDMut :=
      match cfg.cb.autolink with
      | some al =>
          if tl.2 ≠ .MKDA_NOT_AUTOLINK then
            let st1 := newbufSpan st
            let u_link := unscape_text ((data.drop 1).take (e - 2))
            let r := al u_link tl.2
            (r.1, ob ++ r.2, popbufSpan st1)
          else raw
      | none => raw
    if out.1 then (e, out.2.1, out.2.2) else (0, out.2.1, out.2.2)
  else (0, ob, st)

/-- `char_autolink_www` (active only under `MKDEXT_AUTOLINK`). -/
def char_autolink_www_r (cfg : MDCfg) (ob : List Nat) (st : MDMut)
    (full : List Nat) (off : Nat) : Nat × List Nat × MDMut :=
  match cfg.cb.link with
  | none => (0, ob, st)
  | some lk =>
      if st.in_link_body then (0, ob, st)
      else
        let st1 := newbufSpan st
        let r := sd_autolink__www full off
        let link_len := r.1
        let linkb := r.2.2
        if 0 < link_len then
          let st2 := newbufSpan st1
          let url := [104, 116, 116, 112, 58, 47, 47] ++ linkb
          let ob1 := ob.take (ob.length - r.2.1)
          match cfg.cb.normal_text with
          | some nt =>
              let st3 := newbufSpan st2
              let ltext := nt linkb
              let app := (lk (some url) none (some ltext)).2
              (link_len, ob1 ++ app, popbufSpan (popbufSpan (popbufSpan st3)))
          | none =>
              let app := (lk (some url) none (some linkb)).2
              (link_len, ob1 ++ app, popbufSpan (popbufSpan st2))
        else (0, ob, popbufSpan st1)

/-- `char_autolink_email` (active only under `MKDEXT_AUTOLINK`). -/
def char_autolink_email_r (cfg : MDCfg) (ob : List Nat) (st : MDMut)
    (full : List Nat) (off : Nat) : Nat × List Nat × MDMut :=
  match cfg.cb.autolink with
  | none => (0, ob, st)
  | some al =>
      if st.in_link_body then (0, ob, st)
      else
        let st1 := newbufSpan st
        let r := sd_autolink__email full off
        if 0 < r.1 then
          let ob1 := ob.take (ob.length - r.2.1)
          let app := (al r.2.2 .MKDA_EMAIL).2
          (r.1, ob1 ++ app, popbufSpan st1)
        else (0, ob, popbufSpan st1)

/-- `char_autolink_url` (active only under `MKDEXT_AUTOLINK`). -/
def char_autolink_url_r (cfg : MDCfg) (ob : List Nat) (st : MDMut)
    (full : List Nat) (off : Nat) : Nat × List Nat × MDMut :=
  match cfg.cb.autolink with
  | none => (0, ob, st)
  | some al =>
      if st.in_link_body then (0, ob, st)
      else
        let st1 := newbufSpan st
        let r := sd_autolink__url full off
        if 0 < r.1 then
          let ob1 := ob.take (ob.length - r.2.1)
          let app := (al r.2.2 .MKDA_NORMAL).2
          (r.1, ob1 ++ app, popbufSpan st1)
        else (0, ob, popbufSpan st1)

/-! ### Pure scan loops of the recursive recognizers -/

/-- The bracket-matching loop of `char_link` (`level` starts at 1);
returns the final cursor and whether a newline was crossed. -/
def linkBracketScan (data : List Nat) : Nat → Nat → Bool → Nat → Nat × Bool
  | i, _, nl, 0 => (i, nl)
  | i, level, nl, fuel + 1 =>
      if i < data.length then
        if byteAt data i = 10 then linkBracketScan data (i + 1) level true fuel
        else if byteAt data (i - 1) = 92 then
          linkBracketScan data (i + 1) level nl fuel
        else if byteAt data i = 91 then
          linkBracketScan data (i + 1) (level + 1) nl fuel
        else if byteAt data i = 93 then
          if level ≤ 1 then (i, nl)
          else linkBracketScan data (i + 1) (level - 1) nl fuel
        else linkBracketScan data (i + 1) level nl fuel
      else (i, nl)

/-- The link-end scan of `char_link`'s inline branch (`\\` skips two
bytes; `)` or a whitespace-preceded quote stops). -/
def linkEndScan (data : List Nat) : Nat → Nat → Nat
  | i, 0 => i
  | i, fuel + 1 =>
      if i < data.length then
        if byteAt data i = 92 then linkEndScan data (i + 2) fuel
        else if byteAt data i = 41 then i
        else if 1 ≤ i ∧ under_isspace (byteAt data (i - 1))
            ∧ (byteAt data i = 39 ∨ byteAt data i = 34) then i
        else linkEndScan data (i + 1) fuel
      else i

/-- The title scan of `char_link` (`qtype` closes the title, `)` outside
a title stops). -/
def titleScan (data : List Nat) (qtype : Nat) : Nat → Bool → Nat → Nat
  | i, _, 0 => i
  | i, int, fuel + 1 =>
      if i < data.length then
        if byteAt data i = 92 then titleScan data qtype (i + 2) int fuel
        else if byteAt data i = qtype then titleScan data qtype (i + 1) false fuel
        else if byteAt data i = 41 ∧ !int then i
        else titleScan data qtype (i + 1) int fuel
      else i

/-- The newline-collapsing id builder of `char_link`'s reference
branches: bytes `1..txt_e`, newlines becoming one space unless the
previous byte was a space. -/
def collapseNl (data : List Nat) (txt_e : Nat) : List Nat :=
  (List.range txt_e).foldl
    (fun acc j =>
      if j = 0 then acc
      else if byteAt data j ≠ 10 then acc ++ [byteAt data j]
      else if byteAt data (j - 1) ≠ 32 then acc ++ [32]
      else acc) []

/-- The closing-backtick scan inside `find_emph_char` (`bt` counts
consecutive backticks, `tmp` records the first `c` seen). -/
def fecBtScan (data : List Nat) (c span_nb : Nat) :
    Nat → Nat → Nat → Nat → Nat × Nat
  | i, _, tmp, 0 => (i, tmp)
  | i, bt, tmp, fuel + 1 =>
      if i < data.length ∧ bt < span_nb then
        let tmp2 := if tmp = 0 ∧ byteAt data i = c then i else tmp
        let bt2 := if byteAt data i = 96 then bt + 1 else 0
        fecBtScan data c span_nb (i + 1) bt2 tmp2 fuel
      else (i, tmp)

/-- First position of byte `c` in `[lo, hi)`, 0 when there is none (the
loops start at `lo ≥ 1`, so 0 is the source's unset sentinel). -/
def firstC (data : List Nat) (c lo hi : Nat) : Nat :=
  match ((List.range hi).drop lo).find? (fun k => byteAt data k == c) with
  | some k => k
  | none => 0

/-- The outer loop of `find_emph_char`: skip to the next `c`, backtick or
bracket, handling code spans and links. -/
def find_emph_char_go (data : List Nat) (c : Nat) : Nat → Nat → Nat
  | _, 0 => 0
  | i, fuel + 1 =>
      let size := data.length
      let i1 := scanWhile (fun k => decide (byteAt data k ≠ c)
        && decide (byteAt data k ≠ 96) && decide (byteAt data k ≠ 91)) i size
      if i1 = size then 0
      else if byteAt data i1 = c then i1
      else if 1 ≤ i1 ∧ byteAt data (i1 - 1) = 92 then
        find_emph_char_go data c (i1 + 1) fuel
      else if byteAt data i1 = 96 then
        let i2 := scanWhile (fun k => decide (byteAt data k = 96)) i1 size
        if size ≤ i2 then 0
        else
          let r := fecBtScan data c (i2 - i1) i2 0 0 (size - i2)
          if size ≤ r.1 then r.2
          else find_emph_char_go data c r.1 fuel
      else
        let i2 := i1 + 1
        let i3 := scanWhile (fun k => decide (byteAt data k ≠ 93)) i2 size
        let tmp1 := firstC data c i2 i3
        let i4 := i3 + 1
        let i5 := scanWhile (fun k => under_isspace (byteAt data k)) i4 size
        if size ≤ i5 then tmp1
        else if byteAt data i5 = 91 ∨ byteAt data i5 = 40 then
          let cc := if byteAt data i5 = 91 then 93 else 41
          let i6 := i5 + 1
          let i7 := scanWhile (fun k => decide (byteAt data k ≠ cc)) i6 size
          let tmp2 := if tmp1 ≠ 0 then tmp1 else firstC data c i6 i7
          if size ≤ i7 then tmp2
          else find_emph_char_go data c (i7 + 1) fuel
        else
          if tmp1 ≠ 0 then tmp1 else find_emph_char_go data c i5 fuel

/-- `find_emph_char`. -/
def find_emph_char (data : List Nat) (c : Nat) : Nat :=
  find_emph_char_go data c 1 (data.length + 1)

/-! ### Pure line-collecting loops of the block parsers -/

/-- The line loop of `parse_fencedcode`: collect lines (blank lines
become a newline) until a trail-free closing fence; returns the
collected bytes and the consumed size. -/
def fencedLoop (data : List Nat) : Nat → List Nat → Nat → List Nat × Nat
  | beg, acc, 0 => (acc, beg)
  | beg, acc, fuel + 1 =>
      let size := data.length
      if beg < size then
        let fr := is_codefence (data.drop beg)
        if fr.1 ≠ 0 ∧ fr.2.length = 0 then (acc, beg + fr.1)
        else
          let e := scanWhile (fun k => decide (byteAt data (k - 1) ≠ 10))
            (beg + 1) size
          let acc2 := if beg < e then
              (if is_empty ((data.take e).drop beg) ≠ 0 then acc ++ [10]
               else acc ++ (data.take e).drop beg)
            else acc
          fencedLoop data e acc2 fuel
      else (acc, beg)

/-- The line loop of `parse_blockcode`: four-space-prefixed lines are
collected without their prefix, blank lines become a newline, anything
else stops. -/
def blockcodeLoop (data : List Nat) : Nat → List Nat → Nat → List Nat × Nat
  | beg, acc, 0 => (acc, beg)
  | beg, acc, fuel + 1 =>
      let size := data.length
      if beg < size then
        let e := scanWhile (fun k => decide (byteAt data (k - 1) ≠ 10))
          (beg + 1) size
        let line := (data.take e).drop beg
        let pre := prefix_code line
        if pre ≠ 0 then
          let beg2 := beg + pre
          let acc2 := if beg2 < e then
              (if is_empty ((data.take e).drop beg2) ≠ 0 then acc ++ [10]
               else acc ++ (data.take e).drop beg2)
            else acc
          blockcodeLoop data e acc2 fuel
        else if is_empty line = 0 then (acc, beg)
        else
          let acc2 := if beg < e then acc ++ [10] else acc
          blockcodeLoop data e acc2 fuel
      else (acc, beg)

/-- The line loop of `parse_blockquote`: quoted lines lose their prefix,
and a blank line followed by a non-quoted non-blank line stops; returns
the collected bytes and the end of the last line scanned. -/
def bqLoop (data : List Nat) : Nat → Nat → List Nat → Nat → List Nat × Nat
  | _, e, acc, 0 => (acc, e)
  | beg, e, acc, fuel + 1 =>
      let size := data.length
      if beg < size then
        let e2 := scanWhile (fun k => decide (byteAt data (k - 1) ≠ 10))
          (beg + 1) size
        let line := (data.take e2).drop beg
        let pre := prefix_quote line
        if pre ≠ 0 then
          let beg2 := beg + pre
          let acc2 := if beg2 < e2 then acc ++ (data.take e2).drop beg2 else acc
          bqLoop data e2 e2 acc2 fuel
        else if is_empty line ≠ 0 ∧ (size ≤ e2 ∨
            (prefix_quote (data.drop e2) = 0 ∧ is_empty (data.drop e2) = 0)) then
          (acc, e2)
        else
          let acc2 := if beg < e2 then acc ++ line else acc
          bqLoop data e2 e2 acc2 fuel
      else (acc, e)

/-- The paragraph-delimiting scan of `parse_paragraph`: returns
`(i, end, level)`, where `i` bounds the paragraph text, `end` is the
consumed size and `level` a setext-header level when one ends it. -/
def paraScan (cfg : MDCfg) (data : List Nat) : Nat → Nat → Nat × Nat × Nat
  | i, 0 => (i, i, 0)
  | i, fuel + 1 =>
      let size := data.length
      if i < size then
        let e := scanWhile (fun k => decide (byteAt data (k - 1) ≠ 10))
          (i + 1) size
        let sub := data.drop i
        if is_empty sub ≠ 0 then (i, e, 0)
        else
          let lvl := is_headerline sub
          if lvl ≠ 0 then (i, e, lvl)
          else if is_atxheader cfg sub ∨ is_hrule sub ∨ prefix_quote sub ≠ 0
          then (i, i, 0)
          else if cfg.ext_flags &&& 256 ≠ 0 ∧ !isalnumB (byteAt data i) ∧
              (prefix_oli sub ≠ 0 ∨ prefix_uli sub ≠ 0 ∨
               (byteAt data i = 60 ∧ cfg.cb.blockhtml.isSome ∧
                 parse_htmlblock_len sub ≠ 0) ∨
               (cfg.ext_flags &&& 4 ≠ 0 ∧ (is_codefence sub).1 ≠ 0)) then
            (i, i, 0)
          else paraScan cfg data e fuel
      else (i, i, 0)

/-- `while (w != 0 && data[w] != '\n') w--;` of the setext split. -/
def paraDown1 (data : List Nat) : Nat → Nat → Nat
  | w, 0 => w
  | w, fuel + 1 =>
      if w ≠ 0 ∧ byteAt data w ≠ 10 then paraDown1 data (w - 1) fuel else w

/-- The line loop of `parse_listitem`.  Carries
`(beg, end, in_empty, has_inside_empty, in_fence, sublist, acc, flags)`
and returns the consumed size, the block flag, the sublist split, the
collected bytes and the updated flags. -/
def listItemGo (cfg : MDCfg) (data : List Nat) (orgpre : Nat) :
    Nat → Nat → Bool → Bool → Bool → Nat → List Nat → Nat → Nat →
    Nat × Bool × Nat × List Nat × Nat
  | beg, _, _, hasInside, _, sublist, acc, flags, 0 =>
      (beg, hasInside, sublist, acc, flags)
  | beg, e, inEmpty, hasInside, inFence, sublist, acc, flags, fuel + 1 =>
      let size := data.length
      if beg < size then
        let e2 := scanWhile (fun k => decide (byteAt data (k - 1) ≠ 10))
          (e + 1) size
        let line := (data.take e2).drop beg
        if is_empty line ≠ 0 then
          listItemGo cfg data orgpre e2 e2 true hasInside inFence sublist acc
            flags fuel
        else
          let pre := scanWhile (fun k => decide (byteAt data k = 32)) beg
            (min (beg + 4) e2) - beg
          let inFence2 := if cfg.ext_flags &&& 4 ≠ 0 ∧
              (is_codefence ((data.take e2).drop (beg + pre))).1 ≠ 0 then
              !inFence
            else inFence
          let sub := (data.take e2).drop (beg + pre)
          let hasUli := if inFence2 then 0 else prefix_uli sub
          let hasOli := if inFence2 then 0 else prefix_oli sub
          if inEmpty ∧ ((flags &&& 1 ≠ 0 ∧ hasUli ≠ 0) ∨
              (flags &&& 1 = 0 ∧ hasOli ≠ 0)) then
            (beg, hasInside, sublist, acc, flags ||| 8)
          else if (hasUli ≠ 0 ∧ !is_hrule sub) ∨ hasOli ≠ 0 then
            let hasInside2 := hasInside ∨ inEmpty
            if pre = orgpre then (beg, hasInside2, sublist, acc, flags)
            else
              let sublist2 := if sublist = 0 then acc.length else sublist
              let acc2 := acc ++ (data.take e2).drop (beg + pre)
              listItemGo cfg data orgpre e2 e2 false hasInside2 inFence2
                sublist2 acc2 flags fuel
          else if inEmpty ∧ pre = 0 then
            (beg, hasInside, sublist, acc, flags ||| 8)
          else
            let accX := if inEmpty then acc ++ [10] else acc
            let hasInside2 := hasInside ∨ inEmpty
            let acc2 := accX ++ (data.take e2).drop (beg + pre)
            listItemGo cfg data orgpre e2 e2 false hasInside2 inFence2 sublist
              acc2 flags fuel
      else (beg, hasInside, sublist, acc, flags)

/-- The per-column underline parse of `parse_table_header`; returns the
cursor, the columns parsed and the per-column alignment flags. -/
def tblUnderGo (data : List Nat) (under_end columns : Nat) :
    Nat → Nat → List Nat → Nat → Nat × Nat × List Nat
  | i, col, cd, 0 => (i, col, cd)
  | i, col, cd, fuel + 1 =>
      if col < columns ∧ i < under_end then
        let i1 := scanWhile (fun k => decide (byteAt data k = 32)) i under_end
        let d1 : Nat := if byteAt data i1 = 58 then 1 else 0
        let i2 := i1 + d1
        let cd2 := if d1 = 1 then cd.set col (cd.getD col 0 ||| 1) else cd
        let i3 := scanWhile (fun k => decide (byteAt data k = 45)) i2 under_end
        let dashes1 := d1 + (i3 - i2)
        let hasR := i3 < under_end ∧ byteAt data i3 = 58
        let i4 := if hasR then i3 + 1 else i3
        let cd3 := if hasR then cd2.set col (cd2.getD col 0 ||| 2) else cd2
        let dashes2 := if hasR then dashes1 + 1 else dashes1
        let i5 := scanWhile (fun k => decide (byteAt data k = 32)) i4 under_end
        if i5 < under_end ∧ byteAt data i5 ≠ 124 then (i5, col, cd3)
        else if dashes2 < 3 then (i5, col, cd3)
        else tblUnderGo data under_end columns (i5 + 1) (col + 1) cd3 fuel
      else (i, col, cd)

/-! ### Reference-definition recognition and the first pass -/

/-- `is_ref`: when the line at `beg` is a link-reference definition,
`some (last, id, url, title)` with `last` the byte count consumed
(end-of-line); `none` otherwise. -/
def is_ref (data : List Nat) (beg : Nat) :
    Option (Nat × List Nat × List Nat × Option (List Nat)) :=
  let e := data.length
  if e ≤ beg + 3 then none
  else
    let i0 : Nat := if byteAt data beg = 32 then
        (if byteAt data (beg + 1) = 32 then
          (if byteAt data (beg + 2) = 32 then
            (if byteAt data (beg + 3) = 32 then 4 else 3) else 2) else 1)
      else 0
    if i0 = 4 then none
    else
      let i1 := beg + i0
      if byteAt data i1 ≠ 91 then none
      else
        let id_offset := i1 + 1
        let i2 := scanWhile (fun k => decide (byteAt data k ≠ 10)
          && decide (byteAt data k ≠ 13) && decide (byteAt data k ≠ 93))
          id_offset e
        if e ≤ i2 ∨ byteAt data i2 ≠ 93 then none
        else
          let id_end := i2
          let i3 := i2 + 1
          if e ≤ i3 ∨ byteAt data i3 ≠ 58 then none
          else
            let i4 := scanWhile (fun k => decide (byteAt data k = 32)) (i3 + 1) e
            let i5 := if i4 < e ∧ (byteAt data i4 = 10 ∨ byteAt data i4 = 13)
              then
                let j := i4 + 1
                if j < e ∧ byteAt data j = 13 ∧ byteAt data (j - 1) = 10
                then j + 1 else j
              else i4
            let i6 := scanWhile (fun k => decide (byteAt data k = 32)) i5 e
            if e ≤ i6 then none
            else
              let i7 := if byteAt data i6 = 60 then i6 + 1 else i6
              let link_offset := i7
              let i8 := scanWhile (fun k => decide (byteAt data k ≠ 32)
                && decide (byteAt data k ≠ 10) && decide (byteAt data k ≠ 13))
                i7 e
              let link_end := if byteAt data (i8 - 1) = 62 then i8 - 1 else i8
              let i9 := scanWhile (fun k => decide (byteAt data k = 32)) i8 e
              if i9 < e ∧ byteAt data i9 ≠ 10 ∧ byteAt data i9 ≠ 13
                  ∧ byteAt data i9 ≠ 39 ∧ byteAt data i9 ≠ 34
                  ∧ byteAt data i9 ≠ 40 then none
              else
                let le0 : Nat := if e ≤ i9 ∨ byteAt data i9 = 13
                    ∨ byteAt data i9 = 10 then i9 else 0
                let le1 := if i9 + 1 < e ∧ byteAt data i9 = 10
                    ∧ byteAt data (i9 + 1) = 13 then i9 + 1 else le0
                let i10 := if le1 ≠ 0 then
                    scanWhile (fun k => decide (byteAt data k = 32)) (le1 + 1) e
                  else i9
                let tr : Nat × Nat × Nat :=
                  if i10 + 1 < e ∧ (byteAt data i10 = 39 ∨ byteAt data i10 = 34
                      ∨ byteAt data i10 = 40) then
                    let to2 := i10 + 1
                    let i11 := scanWhile (fun k => decide (byteAt data k ≠ 10)
                      && decide (byteAt data k ≠ 13)) to2 e
                    let te0 := if i11 + 1 < e ∧ byteAt data i11 = 10
                        ∧ byteAt data (i11 + 1) = 13 then i11 + 1 else i11
                    let ib := backSp data (i11 - 1) (i11 - 1 - to2)
                    if to2 < ib ∧ (byteAt data ib = 39 ∨ byteAt data ib = 34
                        ∨ byteAt data ib = 41) then (to2, ib, te0)
                    else (to2, te0, le1)
                  else (0, 0, le1)
                if tr.2.2 = 0 ∨ link_end = link_offset then none
                else
                  some (tr.2.2, (data.take id_end).drop id_offset,
                    (data.take link_end).drop link_offset,
                    if tr.1 < tr.2.1 then
                      some ((data.take tr.2.1).drop tr.1)
                    else none)

/-- The newline normalization of the first pass: each `\n`, and each `\r`
not directly followed by `\n`, appends one newline. -/
def nlLoop (doc : List Nat) : List Nat → Nat → Nat → List Nat × Nat
  | text, e, 0 => (text, e)
  | text, e, fuel + 1 =>
      if e < doc.length ∧ (byteAt doc e = 10 ∨ byteAt doc e = 13) then
        let text2 := if byteAt doc e = 10 ∨
            (e + 1 < doc.length ∧ byteAt doc (e + 1) ≠ 10) then text ++ [10]
          else text
        nlLoop doc text2 (e + 1) fuel
      else (text, e)

/-- The first pass of `sd_markdown_render`: reference definitions feed
the table, other lines are tab-expanded into the working text. -/
def phase1Go (doc : List Nat) : Nat → List Nat → RefTable → Nat →
    List Nat × RefTable
  | _, text, refs, 0 => (text, refs)
  | beg, text, refs, fuel + 1 =>
      if beg < doc.length then
        match is_ref doc beg with
        | some r =>
            phase1Go doc r.1 text (add_link_ref refs r.2.1 r.2.2.1 r.2.2.2).2
              fuel
        | none =>
            let e := scanWhile (fun k => decide (byteAt doc k ≠ 10)
              && decide (byteAt doc k ≠ 13)) beg doc.length
            let text1 := if beg < e then
                text ++ expand_tabs ((doc.take e).drop beg)
              else text
            let r2 := nlLoop doc text1 e (doc.length - e)
            phase1Go doc r2.2 r2.1 refs fuel
      else (text, refs)

/-! ### The mutually recursive core

The mutually recursive parsing functions are tied through a fuel-indexed
record: level `f + 1` of the engine makes every cross-function call at
level `f`, and level 0 bails with the state untouched.  The driver hands
the engine more fuel than any reachable call depth (the recursion is
throttled by `max_nesting`: every chain of engine calls bumps a scratch
pool within a bounded number of steps), so exhaustion is unreachable on
the driver's path. -/

/-- The signatures of the mutually recursive parsing functions.  Inline
recognizers follow the `char_*` convention (enclosing slice plus cursor);
block parsers receive their slice directly. -/
structure EngineFns where
  parse_inline : List Nat → MDMut → List Nat → List Nat × MDMut
  char_emphasis : List Nat → MDMut → List Nat → Nat → Nat × List Nat × MDMut
  char_link : List Nat → MDMut → List Nat → Nat → Nat × List Nat × MDMut
  char_superscript : List Nat → MDMut → List Nat → Nat → Nat × List Nat × MDMut
  parse_emph1 : List Nat → MDMut → List Nat → Nat → Nat → Nat × List Nat × MDMut
  parse_emph2 : List Nat → MDMut → List Nat → Nat → Nat → Nat × List Nat × MDMut
  parse_emph3 : List Nat → MDMut → List Nat → Nat → Nat → Nat × List Nat × MDMut
  parse_block : List Nat → MDMut → List Nat → List Nat × MDMut
  parse_atxheader : List Nat → MDMut → List Nat → Nat × List Nat × MDMut
  parse_blockquote : List Nat → MDMut → List Nat → Nat × List Nat × MDMut
  parse_paragraph : List Nat → MDMut → List Nat → Nat × List Nat × MDMut
  parse_listitem : List Nat → MDMut → List Nat → Nat → Nat × Nat × List Nat × MDMut
  parse_list : List Nat → MDMut → List Nat → Nat → Nat × List Nat × MDMut
  parse_table_row : List Nat → MDMut → List Nat → Nat → List Nat → Nat →
    List Nat × MDMut
  parse_table_header : List Nat → MDMut → List Nat →
    Nat × Nat × List Nat × List Nat × MDMut
  parse_table : List Nat → MDMut → List Nat → Nat × List Nat × MDMut

/-- Exhausted-fuel engine: every function makes no progress and leaves
output and state untouched. -/
def bailEngine : EngineFns where
  parse_inline := fun ob st _ => (ob, st)
  char_emphasis := fun ob st _ _ => (0, ob, st)
  char_link := fun ob st _ _ => (0, ob, st)
  char_superscript := fun ob st _ _ => (0, ob, st)
  parse_emph1 := fun ob st _ _ _ => (0, ob, st)
  parse_emph2 := fun ob st _ _ _ => (0, ob, st)
  parse_emph3 := fun ob st _ _ _ => (0, ob, st)
  parse_block := fun ob st _ => (ob, st)
  parse_atxheader := fun ob st _ => (0, ob, st)
  parse_blockquote := fun ob st _ => (0, ob, st)
  parse_paragraph := fun ob st _ => (0, ob, st)
  parse_listitem := fun ob st _ flags => (0, flags, ob, st)
  parse_list := fun ob st _ _ => (0, ob, st)
  parse_table_row := fun ob st _ _ _ _ => (ob, st)
  parse_table_header := fun ob st _ => (0, 0, [], ob, st)
  parse_table := fun ob st _ => (0, ob, st)

/-- `while (e > lo && _isspace data[e-1]) e--;` with `fuel = e - lo`. -/
def trimEndSpLo (data : List Nat) : Nat → Nat → Nat
  | e, 0 => e
  | e, fuel + 1 =>
      if under_isspace (byteAt data (e - 1)) then trimEndSpLo data (e - 1) fuel
      else e

/-- End of `char_link`'s inline-style branch: trim the link's trailing
whitespace, strip optional angle brackets, and copy link and title into
scratch buffers. -/
def linkInlineFinish (data : List Nat) (link_b link_e title_b title_e i_fin : Nat)
    (st : MDMut) : Nat × Option (List Nat) × Option (List Nat) × MDMut :=
  let le := trimEndSpLo data link_e (link_e - link_b)
  let lb := if byteAt data link_b = 60 then link_b + 1 else link_b
  let le2 := if byteAt data (le - 1) = 62 then le - 1 else le
  let s1 : MDMut × Option (List Nat) :=
    if lb < le2 then (newbufSpan st, some ((data.take le2).drop lb))
    else (st, none)
  let s2 : MDMut × Option (List Nat) :=
    if title_b < title_e then
      (newbufSpan s1.1, some ((data.take title_e).drop title_b))
    else (s1.1, none)
  (i_fin, s1.2, s2.2, s2.1)

/-- The style-resolution step of `char_link` (inline, reference and
shortcut styles): from the cursor after the closing bracket, either
`none` (a `goto cleanup` path) or the end cursor, the link, the title
and the state after the id scratch buffers. -/
def char_link_styled (data : List Nat) (txt_e i2 : Nat) (text_has_nl : Bool)
    (st : MDMut) : Option (Nat × Option (List Nat) × Option (List Nat) × MDMut) :=
  let size := data.length
  if i2 < size ∧ byteAt data i2 = 40 then
    let i3 := scanWhile (fun k => under_isspace (byteAt data k)) (i2 + 1) size
    let link_b := i3
    let i4 := linkEndScan data i3 size
    if size ≤ i4 then none
    else if byteAt data i4 = 39 ∨ byteAt data i4 = 34 then
      let qtype := byteAt data i4
      let i5 := titleScan data qtype (i4 + 1) true size
      if size ≤ i5 then none
      else
        let tb := i4 + 1
        let te := trimBackSp data (i5 - 1) (i5 - 1 - tb)
        if byteAt data te ≠ 39 ∧ byteAt data te ≠ 34 then
          some (linkInlineFinish data link_b i5 0 0 (i5 + 1) st)
        else
          some (linkInlineFinish data link_b i4 tb te (i5 + 1) st)
    else
      some (linkInlineFinish data link_b i4 0 0 (i4 + 1) st)
  else if i2 < size ∧ byteAt data i2 = 91 then
    let link_b := i2 + 1
    let i4 := scanWhile (fun k => decide (byteAt data k ≠ 93)) link_b size
    if size ≤ i4 then none
    else
      let sa : MDMut × List Nat :=
        if link_b = i4 then
          if text_has_nl then (newbufSpan st, collapseNl data txt_e)
          else (st, (data.take txt_e).drop 1)
        else (st, (data.take i4).drop link_b)
      match find_link_ref sa.1.refs sa.2 with
      | none => none
      | some lr => some (i4 + 1, some lr.link, lr.title, sa.1)
  else
    let sa : MDMut × List Nat :=
      if text_has_nl then (newbufSpan st, collapseNl data txt_e)
      else (st, (data.take txt_e).drop 1)
    match find_link_ref sa.1.refs sa.2 with
    | none => none
    | some lr => some (txt_e + 1, some lr.link, lr.title, sa.1)

/-- `char_link`: bracketed links and images, in the inline, reference and
shortcut styles.  All failure exits go through the cleanup label, which
restores the span-pool counter to its entry value. -/
def char_link_m (E : EngineFns) (cfg : MDCfg) (ob : List Nat) (st : MDMut)
    (full : List Nat) (off : Nat) : Nat × List Nat × MDMut :=
  let data := full.drop off
  let size := data.length
  let is_img := off ≠ 0 ∧ byteAt full (off - 1) = 33
  if (is_img ∧ cfg.cb.image.isNone) ∨ (¬is_img ∧ cfg.cb.link.isNone) then
    (0, ob, st)
  else
    let br := linkBracketScan data 1 1 false size
    let txt_e := br.1
    let text_has_nl := br.2
    if size ≤ txt_e then (0, ob, st)
    else
      let i2 := scanWhile (fun k => under_isspace (byteAt data k)) (txt_e + 1)
        size
      match char_link_styled data txt_e i2 text_has_nl st with
      | none => (0, ob, st)
      | some r =>
          let i_fin := r.1
          let linkOpt := r.2.1
          let titleOpt := r.2.2.1
          let stA := r.2.2.2
          let cn : MDMut × Option (List Nat) :=
            if 1 < txt_e then
              let stC0 := newbufSpan stA
              if is_img then (stC0, some ((data.take txt_e).drop 1))
              else
                let pr := E.parse_inline [] { stC0 with in_link_body := true }
                  ((data.take txt_e).drop 1)
                ({ pr.2 with in_link_body := false }, some pr.1)
            else (stA, none)
          let ul : MDMut × Option (List Nat) := match linkOpt with
            | some lb2 => (newbufSpan cn.1, some (unscape_text lb2))
            | none => (cn.1, none)
          let ro : Bool × List Nat :=
            if is_img then
              let ob1 := if ob.length ≠ 0 ∧ byteAt ob (ob.length - 1) = 33 then
                  ob.take (ob.length - 1)
                else ob
              match cfg.cb.image with
              | some img =>
                  let r2 := img ul.2 titleOpt cn.2
                  (r2.1, ob1 ++ r2.2)
              | none => (false, ob1)
            else
              match cfg.cb.link with
              | some lk =>
                  let r2 := lk ul.2 titleOpt cn.2
                  (r2.1, ob ++ r2.2)
              | none => (false, ob)
          (if ro.1 then i_fin else 0, ro.2, { ul.1 with spanSize := st.spanSize })

/-- `char_superscript`. -/
def char_superscript_m (E : EngineFns) (cfg : MDCfg) (ob : List Nat)
    (st : MDMut) (full : List Nat) (off : Nat) : Nat × List Nat × MDMut :=
  match cfg.cb.superscript with
  | none => (0, ob, st)
  | some sup =>
      let data := full.drop off
      let size := data.length
      if size < 2 then (0, ob, st)
      else
        let paren := byteAt data 1 = 40
        let sup_start : Nat := if paren then 2 else 1
        let sup_len :=
          if paren then
            scanWhile (fun k => decide (byteAt data k ≠ 41)
              && decide (byteAt data (k - 1) ≠ 92)) 2 size
          else
            scanWhile (fun k => !under_isspace (byteAt data k)) 1 size
        if paren ∧ sup_len = size then (0, ob, st)
        else if sup_len - sup_start = 0 then
          (if sup_start = 2 then 3 else 0, ob, st)
        else
          let st1 := newbufSpan st
          let pr := E.parse_inline [] st1 ((data.take sup_len).drop sup_start)
          let r := sup pr.1
          (if sup_start = 2 then sup_len + 1 else sup_len, ob ++ r.2,
            popbufSpan pr.2)

/-- The search loop of `parse_emph1`, with the emphasis callback
resolved. -/
def emph1Go (E : EngineFns) (cfg : MDCfg) (em : List Nat → Bool × List Nat)
    (data : List Nat) (c : Nat) :
    List Nat → MDMut → Nat → Nat → Nat × List Nat × MDMut
  | ob, st, _, 0 => (0, ob, st)
  | ob, st, i, fuel + 1 =>
      let size := data.length
      if i < size then
        let len := find_emph_char (data.drop i) c
        if len = 0 then (0, ob, st)
        else
          let i2 := i + len
          if size ≤ i2 then (0, ob, st)
          else if byteAt data i2 = c ∧ !under_isspace (byteAt data (i2 - 1)) then
            if cfg.ext_flags &&& 1 ≠ 0 ∧ i2 + 1 < size
                ∧ isalnumB (byteAt data (i2 + 1)) then
              emph1Go E cfg em data c ob st i2 fuel
            else
              let st1 := newbufSpan st
              let pr := E.parse_inline [] st1 (data.take i2)
              let r := em pr.1
              (if r.1 then i2 + 1 else 0, ob ++ r.2, popbufSpan pr.2)
          else emph1Go E cfg em data c ob st i2 fuel
      else (0, ob, st)

/-- `parse_emph1`. -/
def parse_emph1_m (E : EngineFns) (cfg : MDCfg) (ob : List Nat) (st : MDMut)
    (full : List Nat) (off c : Nat) : Nat × List Nat × MDMut :=
  let data := full.drop off
  match cfg.cb.emphasis with
  | none => (0, ob, st)
  | some em =>
      let i0 : Nat := if 1 < data.length ∧ byteAt data 0 = c ∧ byteAt data 1 = c
        then 1 else 0
      emph1Go E cfg em data c ob st i0 (data.length + 1)

/-- The search loop of `parse_emph2`, with the render method resolved. -/
def emph2Go (E : EngineFns) (rm : List Nat → Bool × List Nat)
    (data : List Nat) (c : Nat) :
    List Nat → MDMut → Nat → Nat → Nat × List Nat × MDMut
  | ob, st, _, 0 => (0, ob, st)
  | ob, st, i, fuel + 1 =>
      let size := data.length
      if i < size then
        let len := find_emph_char (data.drop i) c
        if len = 0 then (0, ob, st)
        else
          let i2 := i + len
          if i2 + 1 < size ∧ byteAt data i2 = c ∧ byteAt data (i2 + 1) = c
              ∧ i2 ≠ 0 ∧ !under_isspace (byteAt data (i2 - 1)) then
            let st1 := newbufSpan st
            let pr := E.parse_inline [] st1 (data.take i2)
            let r := rm pr.1
            (if r.1 then i2 + 2 else 0, ob ++ r.2, popbufSpan pr.2)
          else emph2Go E rm data c ob st (i2 + 1) fuel
      else (0, ob, st)

/-- `parse_emph2` (`~` renders through `strikethrough`). -/
def parse_emph2_m (E : EngineFns) (cfg : MDCfg) (ob : List Nat) (st : MDMut)
    (full : List Nat) (off c : Nat) : Nat × List Nat × MDMut :=
  let data := full.drop off
  match (if c = 126 then cfg.cb.strikethrough else cfg.cb.double_emphasis) with
  | none => (0, ob, st)
  | some rm => emph2Go E rm data c ob st 0 (data.length + 1)

/-- The search loop of `parse_emph3`: a triple closer renders directly,
a double or single closer hands over to `parse_emph1` or `parse_emph2`
with the cursor moved back. -/
def emph3Go (E : EngineFns) (cfg : MDCfg) (full : List Nat) (off c : Nat) :
    List Nat → MDMut → Nat → Nat → Nat × List Nat × MDMut
  | ob, st, _, 0 => (0, ob, st)
  | ob, st, i, fuel + 1 =>
      let data := full.drop off
      let size := data.length
      if i < size then
        let len := find_emph_char (data.drop i) c
        if len = 0 then (0, ob, st)
        else
          let i2 := i + len
          if byteAt data i2 ≠ c ∨ under_isspace (byteAt data (i2 - 1)) then
            emph3Go E cfg full off c ob st i2 fuel
          else if i2 + 2 < size ∧ byteAt data (i2 + 1) = c
              ∧ byteAt data (i2 + 2) = c ∧ cfg.cb.triple_emphasis.isSome then
            let st1 := newbufSpan st
            let pr := E.parse_inline [] st1 (data.take i2)
            let r := match cfg.cb.triple_emphasis with
              | some te => te pr.1
              | none => (false, [])
            (if r.1 then i2 + 3 else 0, ob ++ r.2, popbufSpan pr.2)
          else if i2 + 1 < size ∧ byteAt data (i2 + 1) = c then
            let pr := E.parse_emph1 ob st full (off - 2) c
            (if pr.1 = 0 then 0 else pr.1 - 2, pr.2.1, pr.2.2)
          else
            let pr := E.parse_emph2 ob st full (off - 1) c
            (if pr.1 = 0 then 0 else pr.1 - 1, pr.2.1, pr.2.2)
      else (0, ob, st)

/-- `parse_emph3`. -/
def parse_emph3_m (E : EngineFns) (cfg : MDCfg) (ob : List Nat) (st : MDMut)
    (full : List Nat) (off c : Nat) : Nat × List Nat × MDMut :=
  emph3Go E cfg full off c ob st 0 (full.length - off + 1)

/-- `char_emphasis`: dispatch on the delimiter run length. -/
def char_emphasis_m (E : EngineFns) (cfg : MDCfg) (ob : List Nat) (st : MDMut)
    (full : List Nat) (off : Nat) : Nat × List Nat × MDMut :=
  let data := full.drop off
  let size := data.length
  let c := byteAt data 0
  if cfg.ext_flags &&& 1 ≠ 0 ∧ 0 < off ∧ !under_isspace (byteAt full (off - 1))
      ∧ byteAt full (off - 1) ≠ 62 then (0, ob, st)
  else if 2 < size ∧ byteAt data 1 ≠ c then
    if c = 126 ∨ under_isspace (byteAt data 1) then (0, ob, st)
    else
      let pr := E.parse_emph1 ob st full (off + 1) c
      (if pr.1 = 0 then 0 else pr.1 + 1, pr.2.1, pr.2.2)
  else if 3 < size ∧ byteAt data 1 = c ∧ byteAt data 2 ≠ c then
    if under_isspace (byteAt data 2) then (0, ob, st)
    else
      let pr := E.parse_emph2 ob st full (off + 2) c
      (if pr.1 = 0 then 0 else pr.1 + 2, pr.2.1, pr.2.2)
  else if 4 < size ∧ byteAt data 1 = c ∧ byteAt data 2 = c
      ∧ byteAt data 3 ≠ c then
    if c = 126 ∨ under_isspace (byteAt data 3) then (0, ob, st)
    else
      let pr := E.parse_emph3 ob st full (off + 3) c
      (if pr.1 = 0 then 0 else pr.1 + 3, pr.2.1, pr.2.2)
  else (0, ob, st)

/-- The `markdown_char_ptrs` dispatch (`action` 1 through 11). -/
def dispatchChar (E : EngineFns) (cfg : MDCfg) (act : Nat) (ob : List Nat)
    (st : MDMut) (full : List Nat) (off : Nat) : Nat × List Nat × MDMut :=
  if act = 1 then char_emphasis_m E cfg ob st full off
  else if act = 2 then char_codespan_r cfg ob st full off
  else if act = 3 then char_linebreak_r cfg ob st full off
  else if act = 4 then char_link_m E cfg ob st full off
  else if act = 5 then char_langle_tag_r cfg ob st full off
  else if act = 6 then char_escape_r cfg ob st full off
  else if act = 7 then char_entity_r cfg ob st full off
  else if act = 8 then char_autolink_url_r cfg ob st full off
  else if act = 9 then char_autolink_email_r cfg ob st full off
  else if act = 10 then char_autolink_www_r cfg ob st full off
  else if act = 11 then char_superscript_m E cfg ob st full off
  else (0, ob, st)

/-- The main loop of `parse_inline`: `i` bounds the pending normal-text
chunk, `e` is the scan cursor; each step either consumes an active span
or moves the cursor past an inactive trigger.  `i + e` grows by at least
one per iteration, so `2 * size + 2` fuel covers the loop. -/
def piGo (E : EngineFns) (cfg : MDCfg) (full : List Nat) :
    List Nat → MDMut → Nat → Nat → Nat → List Nat × MDMut
  | ob, st, _, _, 0 => (ob, st)
  | ob, st, i, e, fuel + 1 =>
      let size := full.length
      if i < size then
        let e2 := scanWhile (fun k => decide (active_char cfg (byteAt full k) = 0))
          e size
        let chunk := (full.take e2).drop i
        let ob1 := ob ++ (match cfg.cb.normal_text with
          | some nt => nt chunk
          | none => chunk)
        if size ≤ e2 then (ob1, st)
        else
          let act := active_char cfg (byteAt full e2)
          let r := dispatchChar E cfg act ob1 st full e2
          if r.1 = 0 then piGo E cfg full r.2.1 r.2.2 e2 (e2 + 1) fuel
          else piGo E cfg full r.2.1 r.2.2 (e2 + r.1) (e2 + r.1) fuel
      else (ob, st)

/-- `parse_inline`: bail beyond the nesting limit, then run the loop. -/
def parse_inline_m (E : EngineFns) (cfg : MDCfg) (ob : List Nat) (st : MDMut)
    (data : List Nat) : List Nat × MDMut :=
  if cfg.max_nesting < st.spanSize + st.blockSize then (ob, st)
  else piGo E cfg data ob st 0 0 (2 * data.length + 2)

/-- `parse_fencedcode` (state-passing; recursion-free). -/
def parse_fencedcode_r (cfg : MDCfg) (ob : List Nat) (st : MDMut)
    (data : List Nat) : Nat × List Nat × MDMut :=
  let r0 := is_codefence data
  if r0.1 = 0 then (0, ob, st)
  else
    let st1 := newbufBlock st
    let fl := fencedLoop data r0.1 [] (data.length + 1)
    let work := fl.1
    let work2 := if work.length ≠ 0 ∧ byteAt work (work.length - 1) ≠ 10 then
        work ++ [10]
      else work
    let app := match cfg.cb.blockcode with
      | some bc => bc work2 (if r0.2.length ≠ 0 then some r0.2 else none)
      | none => []
    (fl.2, ob ++ app, popbufBlock st1)

/-- `parse_blockcode` (state-passing; recursion-free). -/
def parse_blockcode_r (cfg : MDCfg) (ob : List Nat) (st : MDMut)
    (data : List Nat) : Nat × List Nat × MDMut :=
  let st1 := newbufBlock st
  let bl := blockcodeLoop data 0 [] (data.length + 1)
  let work := (bl.1.reverse.dropWhile (· == 10)).reverse ++ [10]
  let app := match cfg.cb.blockcode with
    | some bc => bc work none
    | none => []
  (bl.2, ob ++ app, popbufBlock st1)

/-- `parse_atxheader`. -/
def parse_atxheader_m (E : EngineFns) (cfg : MDCfg) (ob : List Nat)
    (st : MDMut) (data : List Nat) : Nat × List Nat × MDMut :=
  let size := data.length
  let level := scanWhile (fun k => decide (byteAt data k = 35)) 0 (min size 6)
  let i := scanWhile (fun k => decide (byteAt data k = 32)) level size
  let e0 := scanWhile (fun k => decide (byteAt data k ≠ 10)) i size
  let e1 := trimEndIf (· == 35) data e0 e0
  let e2 := trimEndIf (· == 32) data e1 e1
  if i < e2 then
    let st1 := newbufSpan st
    let pr := E.parse_inline [] st1 ((data.take e2).drop i)
    let app := match cfg.cb.header with
      | some h => h pr.1 level
      | none => []
    (e0, ob ++ app, popbufSpan pr.2)
  else (e0, ob, st)

/-- `parse_blockquote`. -/
def parse_blockquote_m (E : EngineFns) (cfg : MDCfg) (ob : List Nat)
    (st : MDMut) (data : List Nat) : Nat × List Nat × MDMut :=
  let st1 := newbufBlock st
  let r := bqLoop data 0 0 [] (data.length + 1)
  let pr := E.parse_block [] st1 r.1
  let app := match cfg.cb.blockquote with
    | some bq => bq pr.1
    | none => []
  (r.2, ob ++ app, popbufBlock pr.2)

/-- `parse_paragraph`, including the setext-header split when the scan
stopped on an underline. -/
def parse_paragraph_m (E : EngineFns) (cfg : MDCfg) (ob : List Nat)
    (st : MDMut) (data : List Nat) : Nat × List Nat × MDMut :=
  let ps := paraScan cfg data 0 (data.length + 1)
  let i := ps.1
  let e := ps.2.1
  let level := ps.2.2
  let ws := trimEndIf (· == 10) data i i
  if level = 0 then
    let st1 := newbufBlock st
    let pr := E.parse_inline [] st1 (data.take ws)
    let app := match cfg.cb.paragraph with
      | some p => p pr.1
      | none => []
    (e, ob ++ app, popbufBlock pr.2)
  else if ws ≠ 0 then
    let w2 := paraDown1 data (ws - 1) (ws - 1)
    let beg2 := w2 + 1
    let w3 := trimEndIf (· == 10) data w2 w2
    if 0 < w3 then
      let st1 := newbufBlock st
      let pr := E.parse_inline [] st1 (data.take w3)
      let app := match cfg.cb.paragraph with
        | some p => p pr.1
        | none => []
      let st2 := popbufBlock pr.2
      let st3 := newbufSpan st2
      let hr := E.parse_inline [] st3 ((data.take ws).drop beg2)
      let happ := match cfg.cb.header with
        | some h => h hr.1 level
        | none => []
      (e, ob ++ app ++ happ, popbufSpan hr.2)
    else
      let st3 := newbufSpan st
      let hr := E.parse_inline [] st3 (data.take ws)
      let happ := match cfg.cb.header with
        | some h => h hr.1 level
        | none => []
      (e, ob ++ happ, popbufSpan hr.2)
  else
    let st3 := newbufSpan st
    let hr := E.parse_inline [] st3 []
    let happ := match cfg.cb.header with
      | some h => h hr.1 level
      | none => []
    (e, ob ++ happ, popbufSpan hr.2)

/-- `parse_listitem`: returns consumed size, updated flags, output and
state. -/
def parse_listitem_m (E : EngineFns) (cfg : MDCfg) (ob : List Nat)
    (st : MDMut) (data : List Nat) (flags : Nat) :
    Nat × Nat × List Nat × MDMut :=
  let size := data.length
  let orgpre := scanWhile (fun k => decide (byteAt data k = 32)) 0 (min 3 size)
  let beg0u := prefix_uli data
  let beg0 := if beg0u = 0 then prefix_oli data else beg0u
  if beg0 = 0 then (0, flags, ob, st)
  else
    let e0 := scanWhile (fun k => decide (byteAt data (k - 1) ≠ 10)) beg0 size
    let st1 := newbufSpan st
    let st2 := newbufSpan st1
    let acc0 := (data.take e0).drop beg0
    let lr := listItemGo cfg data orgpre e0 e0 false false false 0 acc0 flags
      (size + 1)
    let begF := lr.1
    let hasInside := lr.2.1
    let sublist := lr.2.2.1
    let acc := lr.2.2.2.1
    let flags2 := if hasInside then lr.2.2.2.2 ||| 2 else lr.2.2.2.2
    let ir : List Nat × MDMut :=
      if flags2 &&& 2 ≠ 0 then
        if sublist ≠ 0 ∧ sublist < acc.length then
          let p1 := E.parse_block [] st2 (acc.take sublist)
          E.parse_block p1.1 p1.2 (acc.drop sublist)
        else E.parse_block [] st2 acc
      else
        if sublist ≠ 0 ∧ sublist < acc.length then
          let p1 := E.parse_inline [] st2 (acc.take sublist)
          E.parse_block p1.1 p1.2 (acc.drop sublist)
        else E.parse_inline [] st2 acc
    let app := match cfg.cb.listitem with
      | some li => li ir.1 flags2
      | none => []
    (begF, flags2, ob ++ app, popbufSpan (popbufSpan ir.2))

/-- The item loop of `parse_list`. -/
def listGo (E : EngineFns) (data : List Nat) :
    List Nat → MDMut → Nat → Nat → Nat → List Nat × MDMut × Nat × Nat
  | wb, st, i, flags, 0 => (wb, st, i, flags)
  | wb, st, i, flags, fuel + 1 =>
      if i < data.length then
        let r := E.parse_listitem wb st (data.drop i) flags
        let i2 := i + r.1
        if r.1 = 0 ∨ r.2.1 &&& 8 ≠ 0 then (r.2.2.1, r.2.2.2, i2, r.2.1)
        else listGo E data r.2.2.1 r.2.2.2 i2 r.2.1 fuel
      else (wb, st, i, flags)

/-- `parse_list`. -/
def parse_list_m (E : EngineFns) (cfg : MDCfg) (ob : List Nat) (st : MDMut)
    (data : List Nat) (flags : Nat) : Nat × List Nat × MDMut :=
  let st1 := newbufBlock st
  let r := listGo E data [] st1 0 flags (data.length + 1)
  let app := match cfg.cb.list with
    | some l => l r.1 r.2.2.2
    | none => []
  (r.2.2.1, ob ++ app, popbufBlock r.2.1)

/-- The cell loop of `parse_table_row`. -/
def tableCellsGo (E : EngineFns) (cfg : MDCfg) (data : List Nat)
    (columns : Nat) (col_data : List Nat) (hf : Nat) :
    List Nat → MDMut → Nat → Nat → Nat → List Nat × MDMut × Nat × Nat
  | row, st, i, col, 0 => (row, st, i, col)
  | row, st, i, col, fuel + 1 =>
      if col < columns ∧ i < data.length then
        let stc := newbufSpan st
        let i1 := scanWhile (fun k => under_isspace (byteAt data k)) i
          data.length
        let cell_start := i1
        let i2 := scanWhile (fun k => decide (byteAt data k ≠ 124)) i1
          data.length
        let ce := trimBackSp data (i2 - 1) (i2 - 1 - cell_start)
        let pr := E.parse_inline [] stc ((data.take (ce + 1)).drop cell_start)
        let app := match cfg.cb.table_cell with
          | some tc => tc pr.1 (col_data.getD col 0 ||| hf)
          | none => []
        tableCellsGo E cfg data columns col_data hf (row ++ app)
          (popbufSpan pr.2) (i2 + 1) (col + 1) fuel
      else (row, st, i, col)

/-- The trailing empty cells of `parse_table_row`. -/
def tableEmptyCells (cfg : MDCfg) (columns : Nat) (col_data : List Nat)
    (hf : Nat) : List Nat → Nat → Nat → List Nat
  | row, _, 0 => row
  | row, col, fuel + 1 =>
      if col < columns then
        let app := match cfg.cb.table_cell with
          | some tc => tc [] (col_data.getD col 0 ||| hf)
          | none => []
        tableEmptyCells cfg columns col_data hf (row ++ app) (col + 1) fuel
      else row

/-- `parse_table_row`. -/
def parse_table_row_m (E : EngineFns) (cfg : MDCfg) (ob : List Nat)
    (st : MDMut) (data : List Nat) (columns : Nat) (col_data : List Nat)
    (hf : Nat) : List Nat × MDMut :=
  if cfg.cb.table_cell.isNone ∨ cfg.cb.table_row.isNone then (ob, st)
  else
    let st1 := newbufSpan st
    let i0 : Nat := if 0 < data.length ∧ byteAt data 0 = 124 then 1 else 0
    let r := tableCellsGo E cfg data columns col_data hf [] st1 i0 0 columns
    let row2 := tableEmptyCells cfg columns col_data hf r.1 r.2.2.2 columns
    let app := match cfg.cb.table_row with
      | some trw => trw row2
      | none => []
    (ob ++ app, popbufSpan r.2.1)

/-- `parse_table_header`: returns consumed size, column count, alignment
flags, output and state.  The pipe discounts are counted in `Int`, as the
source's `int pipes` can reach -1 before `pipes + 1` is stored. -/
def parse_table_header_m (E : EngineFns) (cfg : MDCfg) (ob : List Nat)
    (st : MDMut) (data : List Nat) : Nat × Nat × List Nat × List Nat × MDMut :=
  let size := data.length
  let i_nl := scanWhile (fun k => decide (byteAt data k ≠ 10)) 0 size
  let pipes := (data.take i_nl).count 124
  if i_nl = size ∨ pipes = 0 then (0, 0, [], ob, st)
  else
    let header_end := trimEndIf under_isspace data i_nl i_nl
    let d1 : Nat := if byteAt data 0 = 124 then 1 else 0
    let d2 : Nat := if header_end ≠ 0 ∧ byteAt data (header_end - 1) = 124
      then 1 else 0
    let columns := ((pipes : Int) - d1 - d2 + 1).toNat
    let j0 := i_nl + 1
    let j1 := if j0 < size ∧ byteAt data j0 = 124 then j0 + 1 else j0
    let under_end := scanWhile (fun k => decide (byteAt data k ≠ 10)) j1 size
    let u := tblUnderGo data under_end columns j1 0 (List.replicate columns 0)
      columns
    if u.2.1 < columns then (0, 0, [], ob, st)
    else
      let pr := E.parse_table_row ob st (data.take header_end) columns u.2.2 4
      (under_end + 1, columns, u.2.2, pr.1, pr.2)

/-- The body-row loop of `parse_table`. -/
def tableBodyGo (E : EngineFns) (data : List Nat) (columns : Nat)
    (cd : List Nat) : List Nat → MDMut → Nat → Nat → List Nat × MDMut × Nat
  | bw, st, i, 0 => (bw, st, i)
  | bw, st, i, fuel + 1 =>
      if i < data.length then
        let i2 := scanWhile (fun k => decide (byteAt data k ≠ 10)) i data.length
        let pipes := ((data.take i2).drop i).count 124
        if pipes = 0 ∨ i2 = data.length then (bw, st, i)
        else
          let pr := E.parse_table_row bw st ((data.take i2).drop i) columns cd 0
          tableBodyGo E data columns cd pr.1 pr.2 (i2 + 1) fuel
      else (bw, st, i)

/-- `parse_table`. -/
def parse_table_m (E : EngineFns) (cfg : MDCfg) (ob : List Nat) (st : MDMut)
    (data : List Nat) : Nat × List Nat × MDMut :=
  let st1 := newbufSpan st
  let st2 := newbufBlock st1
  let h := E.parse_table_header [] st2 data
  if 0 < h.1 then
    let b := tableBodyGo E data h.2.1 h.2.2.1 [] h.2.2.2.2 h.1 (data.length + 1)
    let app := match cfg.cb.table with
      | some t => t h.2.2.2.1 b.1
      | none => []
    (b.2.2, ob ++ app, popbufBlock (popbufSpan b.2.1))
  else (h.1, ob, popbufBlock (popbufSpan h.2.2.2.2))

/-- The tail of `parse_block`'s dispatch, from the blockquote test on
(`ob2`, `st2` are the output and state after the short-circuited table
call). -/
def pbStep3 (E : EngineFns) (cfg : MDCfg) (beg : Nat) (ob2 : List Nat)
    (st2 : MDMut) (txt : List Nat) : List Nat × MDMut × Nat :=
  if prefix_quote txt ≠ 0 then
    let r := E.parse_blockquote ob2 st2 txt
    (r.2.1, r.2.2, beg + r.1)
  else if prefix_code txt ≠ 0 then
    let r := parse_blockcode_r cfg ob2 st2 txt
    (r.2.1, r.2.2, beg + r.1)
  else if prefix_uli txt ≠ 0 then
    let r := E.parse_list ob2 st2 txt 0
    (r.2.1, r.2.2, beg + r.1)
  else if prefix_oli txt ≠ 0 then
    let r := E.parse_list ob2 st2 txt 1
    (r.2.1, r.2.2, beg + r.1)
  else
    let r := E.parse_paragraph ob2 st2 txt
    (r.2.1, r.2.2, beg + r.1)

/-- The middle of `parse_block`'s dispatch: the fenced-code result `fcr`
is already in hand, the table recognizer runs (with its effects) before
its success test. -/
def pbStep2 (E : EngineFns) (cfg : MDCfg) (beg : Nat)
    (fcr : Nat × List Nat × MDMut) (txt : List Nat) : List Nat × MDMut × Nat :=
  if cfg.ext_flags &&& 4 ≠ 0 ∧ fcr.1 ≠ 0 then (fcr.2.1, fcr.2.2, beg + fcr.1)
  else
    let tb := if cfg.ext_flags &&& 2 ≠ 0 then
        E.parse_table fcr.2.1 fcr.2.2 txt
      else (0, fcr.2.1, fcr.2.2)
    if cfg.ext_flags &&& 2 ≠ 0 ∧ tb.1 ≠ 0 then (tb.2.1, tb.2.2, beg + tb.1)
    else pbStep3 E cfg beg tb.2.1 tb.2.2 txt

/-- One iteration of `parse_block`'s loop, dispatching in the source's
order; returns the new output, state and cursor. -/
def pbStep (E : EngineFns) (cfg : MDCfg) (data : List Nat) (ob : List Nat)
    (st : MDMut) (beg : Nat) : List Nat × MDMut × Nat :=
  let size := data.length
  let txt := data.drop beg
  if is_atxheader cfg txt then
    let r := E.parse_atxheader ob st txt
    (r.2.1, r.2.2, beg + r.1)
  else if byteAt data beg = 60 ∧ cfg.cb.blockhtml.isSome
      ∧ parse_htmlblock_len txt ≠ 0 then
    let i := parse_htmlblock_len txt
    let app := match cfg.cb.blockhtml with
      | some bh => bh (txt.take i)
      | none => []
    (ob ++ app, st, beg + i)
  else if is_empty txt ≠ 0 then (ob, st, beg + is_empty txt)
  else if is_hrule txt then
    let app := match cfg.cb.hrule with
      | some h => h
      | none => []
    let b2 := scanWhile (fun k => decide (byteAt data k ≠ 10)) beg size
    (ob ++ app, st, b2 + 1)
  else
    pbStep2 E cfg beg
      (if cfg.ext_flags &&& 4 ≠ 0 then parse_fencedcode_r cfg ob st txt
       else (0, ob, st)) txt

/-- The block loop of `parse_block`. -/
def pbGo (E : EngineFns) (cfg : MDCfg) (data : List Nat) :
    List Nat → MDMut → Nat → Nat → List Nat × MDMut
  | ob, st, _, 0 => (ob, st)
  | ob, st, beg, fuel + 1 =>
      if beg < data.length then
        let r := pbStep E cfg data ob st beg
        pbGo E cfg data r.1 r.2.1 r.2.2 fuel
      else (ob, st)

/-- `parse_block`: bail beyond the nesting limit, then run the loop. -/
def parse_block_m (E : EngineFns) (cfg : MDCfg) (ob : List Nat) (st : MDMut)
    (data : List Nat) : List Nat × MDMut :=
  if cfg.max_nesting < st.spanSize + st.blockSize then (ob, st)
  else pbGo E cfg data ob st 0 (data.length + 1)

/-- The fuel-indexed engine: level `f + 1` calls level `f`. -/
def Engine (cfg : MDCfg) : Nat → EngineFns
  | 0 => bailEngine
  | f + 1 =>
      { parse_inline := parse_inline_m (Engine cfg f) cfg
        char_emphasis := char_emphasis_m (Engine cfg f) cfg
        char_link := char_link_m (Engine cfg f) cfg
        char_superscript := char_superscript_m (Engine cfg f) cfg
        parse_emph1 := parse_emph1_m (Engine cfg f) cfg
        parse_emph2 := parse_emph2_m (Engine cfg f) cfg
        parse_emph3 := parse_emph3_m (Engine cfg f) cfg
        parse_block := parse_block_m (Engine cfg f) cfg
        parse_atxheader := parse_atxheader_m (Engine cfg f) cfg
        parse_blockquote := parse_blockquote_m (Engine cfg f) cfg
        parse_paragraph := parse_paragraph_m (Engine cfg f) cfg
        parse_listitem := parse_listitem_m (Engine cfg f) cfg
        parse_list := parse_list_m (Engine cfg f) cfg
        parse_table_row := parse_table_row_m (Engine cfg f) cfg
        parse_table_header := parse_table_header_m (Engine cfg f) cfg
        parse_table := parse_table_m (Engine cfg f) cfg }

/-- Engine fuel handed out by the driver: every chain of engine calls
bumps a scratch pool within at most a handful of steps and the parse
bails once the pools pass `max_nesting`, so this exceeds any reachable
call depth. -/
def engineFuel (cfg : MDCfg) : Nat := 8 * cfg.max_nesting + 64

/-- `sd_markdown_render`: skip a UTF-8 BOM, run the reference pass over
the lines (overwriting the context's reference table), append a final
newline when missing, parse the blocks between `doc_header` and
`doc_footer`.  Returns the bytes appended to the caller's output and the
final context state. -/
def sd_markdown_render (cfg : MDCfg) (st : MDMut) (doc : List Nat) :
    List Nat × MDMut :=
  let beg0 : Nat := if 3 ≤ doc.length ∧ doc.take 3 = [239, 187, 191] then 3
    else 0
  let p1 := phase1Go doc beg0 [] emptyRefs (doc.length + 1)
  let text := p1.1
  let ob0 := match cfg.cb.doc_header with
    | some h => h
    | none => []
  let r : List Nat × MDMut :=
    if text.length ≠ 0 then
      let text2 := if byteAt text (text.length - 1) ≠ 10
          ∧ byteAt text (text.length - 1) ≠ 13 then text ++ [10]
        else text
      (Engine cfg (engineFuel cfg)).parse_block ob0 { st with refs := p1.2 }
        text2
    else (ob0, { st with refs := p1.2 })
  let foot := match cfg.cb.doc_footer with
    | some f => f
    | none => []
  (r.1 ++ foot, r.2)

/-- Pool balance across one call: both scratch-pool counters return to
their entry values, and the in-link-body flag is either restored or left
cleared (the only writes are the set-then-clear pair in `char_link`). -/
def PoolInv (st st2 : MDMut) : Prop :=
  st2.spanSize = st.spanSize ∧ st2.blockSize = st.blockSize ∧
    (st2.in_link_body = st.in_link_body ∨ st2.in_link_body = false)

/-- `PoolInv` ignoring the span counter (used across `char_link`'s body,
whose cleanup restores the span counter wholesale). -/
def BlockIlbInv (st st2 : MDMut) : Prop :=
  st2.blockSize = st.blockSize ∧
    (st2.in_link_body = st.in_link_body ∨ st2.in_link_body = false)

/-- The pool-balance invariant over every engine entry point. -/
structure EngineInv (E : EngineFns) : Prop where
  pi : ∀ ob st data, PoolInv st (E.parse_inline ob st data).2
  ce : ∀ ob st full off, PoolInv st (E.char_emphasis ob st full off).2.2
  cl : ∀ ob st full off, PoolInv st (E.char_link ob st full off).2.2
  cs : ∀ ob st full off, PoolInv st (E.char_superscript ob st full off).2.2
  e1 : ∀ ob st full off c, PoolInv st (E.parse_emph1 ob st full off c).2.2
  e2 : ∀ ob st full off c, PoolInv st (E.parse_emph2 ob st full off c).2.2
  e3 : ∀ ob st full off c, PoolInv st (E.parse_emph3 ob st full off c).2.2
  pb : ∀ ob st data, PoolInv st (E.parse_block ob st data).2
  atx : ∀ ob st data, PoolInv st (E.parse_atxheader ob st data).2.2
  bq : ∀ ob st data, PoolInv st (E.parse_blockquote ob st data).2.2
  par : ∀ ob st data, PoolInv st (E.parse_paragraph ob st data).2.2
  li : ∀ ob st data flags, PoolInv st (E.parse_listitem ob st data flags).2.2.2
  ls : ∀ ob st data flags, PoolInv st (E.parse_list ob st data flags).2.2
  trow : ∀ ob st data columns cd hf,
    PoolInv st (E.parse_table_row ob st data columns cd hf).2
  th : ∀ ob st data, PoolInv st (E.parse_table_header ob st data).2.2.2.2
  tbl : ∀ ob st data, PoolInv st (E.parse_table ob st data).2.2

/-- A callback table with every pointer NULL. -/
def noCallbacks : SDCallbacks :=
  { blockcode := none, blockquote := none, blockhtml := none, header := none,
    hrule := none, list := none, listitem := none, paragraph := none,
    table := none, table_row := none, table_cell := none, autolink := none,
    codespan := none, double_emphasis := none, emphasis := none, image := none,
    linebreak := none, link := none, raw_html_tag := none,
    triple_emphasis := none, strikethrough := none, superscript := none,
    entity := none, normal_text := none, doc_header := none,
    doc_footer := none }

/-- A small HTML-ish renderer: paragraphs in `p` tags, emphasis in `em`
tags. -/
def c79cb : SDCallbacks :=
  { noCallbacks with
    paragraph := some (fun t => [60, 112, 62] ++ t ++ [60, 47, 112, 62])
    emphasis := some (fun t =>
      (true, [60, 101, 109, 62] ++ t ++ [60, 47, 101, 109, 62])) }

/-- A concrete parser configuration. -/
def c79cfg : MDCfg := { cb := c79cb, ext_flags := 0, max_nesting := 16 }

/-- The state of a context fresh from `sd_markdown_new`. -/
def c79st : MDMut :=
  { spanSize := 0, blockSize := 0, in_link_body := false, refs := emptyRefs }

/-- The document `*a*` plus newline. -/
def c79doc : List Nat := [42, 97, 42, 10]

/-! ## Theorems -/

section Theorems

/-! ### C4: safe autolink schemes -/

/-- C4: `sd_autolink_issafe(link, n)` returns nonzero iff `link` begins,
case-insensitively, with one of `/`, `http://`, `https://`, `ftp://`,
`mailto:` and the byte right after that prefix exists within the `n`
bytes and is alphanumeric. -/
theorem c4_autolink_issafe (link : List Nat) :
    sd_autolink_issafe link = true ↔ autolinkSafeSpec link := by
  unfold sd_autolink_issafe autolinkSafeSpec strncaseEq
  rw [List.any_eq_true]
  refine exists_congr fun u => and_congr_right fun _ => ?_
  simp only [Bool.and_eq_true, decide_eq_true_eq, beq_iff_eq, List.take_length,
    ← List.map_take]
  constructor
  · rintro ⟨⟨h1, h2⟩, h3⟩
    exact ⟨h2, h1, h3⟩
  · rintro ⟨h2, h1, h3⟩
    exact ⟨⟨h1, h2⟩, h3⟩

/-! ### C6: tab expansion -/

/-- The `tab` counter of `expand_tabs` equals the number of bytes already
emitted for the line. -/
theorem expandTabsGo_foldl (l : List Nat) : ∀ out : List Nat,
    l.foldl
      (fun out b =>
        out ++ (if b = 9 then List.replicate (4 - out.length % 4) 32 else [b])) out
      = out ++ expandTabsGo l out.length := by
  induction l with
  | nil => intro out; simp [expandTabsGo]
  | cons b rest ih =>
      intro out
      rw [List.foldl_cons]
      by_cases hb : b = 9
      · rw [if_pos hb, ih]
        simp [expandTabsGo, hb, List.append_assoc]
      · rw [if_neg hb, ih]
        simp [expandTabsGo, hb, List.append_assoc]

/-- C6: `expand_tabs` copies non-tab bytes unchanged in order and turns a
tab at output column `c` into `4 - c % 4` spaces. -/
theorem c6_expand_tabs (line : List Nat) : expand_tabs line = expandTabsSpec line := by
  unfold expand_tabs expandTabsSpec
  simpa using (expandTabsGo_foldl line []).symm

/-! ### C5: link-reference fingerprints and table -/

/-- One step of the hash loop, recast over the integers. -/
theorem hash_step_cast (h b : Nat) :
    (((tolowerB b + (h <<< 6) + (h <<< 16) - h) % 2 ^ 32 : Nat) : Int)
      = hashStepSpec (h : Int) b := by
  have h64 : h <<< 6 = h * 64 := by rw [Nat.shiftLeft_eq]
  have h65536 : h <<< 16 = h * 65536 := by rw [Nat.shiftLeft_eq]
  rw [h64, h65536]
  have hle : h ≤ tolowerB b + h * 64 + h * 65536 := by omega
  unfold hashStepSpec
  rw [Int.ofNat_emod, Nat.cast_sub hle]
  push_cast
  congr 1
  ring

/-- The hash loop agrees with the integer fold from any start value. -/
theorem hash_fold_int (l : List Nat) : ∀ h : Nat,
    ((l.foldl (fun h b => (tolowerB b + (h <<< 6) + (h <<< 16) - h) % 2 ^ 32) h : Nat) : Int)
      = l.foldl hashStepSpec (h : Int) := by
  induction l with
  | nil => intro h; rfl
  | cons b rest ih =>
      intro h
      rw [List.foldl_cons, List.foldl_cons, ← hash_step_cast h b, ih]

/-- The chain walk succeeds iff some record in the list carries the
fingerprint. -/
theorem chainFind_isSome (hash : Nat) : ∀ l : List link_ref,
    (chainFind l hash).isSome = true ↔ ∃ r ∈ l, r.id = hash := by
  intro l
  induction l with
  | nil => simp [chainFind]
  | cons r rest ih =>
      by_cases h : r.id = hash
      · simp [chainFind, h]
      · simp [chainFind, h, ih]

/-- C5: the fingerprint is the 32-bit wraparound fold of
`(hash << 6) + (hash << 16) - hash + lower(b)` from 0; insertion puts the
new record at the head of bucket `hash % 8`, leaving other buckets
untouched; lookup succeeds iff the bucket holds a record with an equal
fingerprint; and lookup depends on the label only through its
fingerprint (labels are never re-compared). -/
theorem c5_reference_table :
    (∀ name : List Nat, (hash_link_ref name : Int) = name.foldl hashStepSpec 0)
    ∧ (∀ (refs : RefTable) (name url : List Nat) (title : Option (List Nat)),
        (add_link_ref refs name url title).2 (hash_link_ref name % REF_TABLE_SIZE)
            = (add_link_ref refs name url title).1
                :: refs (hash_link_ref name % REF_TABLE_SIZE)
          ∧ ∀ j, j ≠ hash_link_ref name % REF_TABLE_SIZE →
              (add_link_ref refs name url title).2 j = refs j)
    ∧ (∀ (refs : RefTable) (name : List Nat),
        (find_link_ref refs name).isSome = true
          ↔ ∃ r ∈ refs (hash_link_ref name % REF_TABLE_SIZE),
              r.id = hash_link_ref name)
    ∧ (∀ (refs : RefTable) (n1 n2 : List Nat),
        hash_link_ref n1 = hash_link_ref n2 →
          find_link_ref refs n1 = find_link_ref refs n2) := by
  refine ⟨fun name => ?_, fun refs name url title => ⟨?_, fun j hj => ?_⟩,
    fun refs name => ?_, fun refs n1 n2 h => ?_⟩
  · unfold hash_link_ref
    simpa using hash_fold_int name 0
  · simp [add_link_ref]
  · simp [add_link_ref, hj]
  · exact chainFind_isSome _ _
  · unfold find_link_ref
    rw [h]

/-- Witness for C5: two labels differing only in case share a fingerprint
and therefore the same lookup result. -/
theorem c5_reference_table_witness :
    find_link_ref (fun _ => [{ id := 97, link := [104], title := none }]) [97]
      = find_link_ref (fun _ => [{ id := 97, link := [104], title := none }]) [65] :=
  c5_reference_table.2.2.2 _ [97] [65] (by decide)

/-! ### C10: duplicate fingerprints shadow older records -/

/-- C10: after two insertions whose labels carry equal fingerprints,
every lookup by a label with that fingerprint returns the most recently
inserted record. -/
theorem c10_duplicate_label (refs : RefTable) (n1 u1 : List Nat)
    (t1 : Option (List Nat)) (n2 u2 : List Nat) (t2 : Option (List Nat))
    (q : List Nat) (h12 : hash_link_ref n1 = hash_link_ref n2)
    (hq : hash_link_ref q = hash_link_ref n2) :
    find_link_ref (add_link_ref (add_link_ref refs n1 u1 t1).2 n2 u2 t2).2 q
      = some { id := hash_link_ref n2, link := u2, title := t2 } := by
  unfold find_link_ref add_link_ref
  simp [hq, chainFind]

/-- Witness for C10: the same label inserted twice; lookup returns the
second record. -/
theorem c10_duplicate_label_witness :
    find_link_ref
        (add_link_ref (add_link_ref (fun _ => []) [97] [49] none).2 [97] [50] none).2
        [97]
      = some { id := hash_link_ref [97], link := [50], title := none } :=
  c10_duplicate_label (fun _ => []) [97] [49] none [97] [50] none [97] rfl rfl

/-! ### C8: the 16 MiB growth cap -/

/-- The length of the over-cap append. -/
theorem c8bytes_length : c8bytes.length = BUFFER_MAX_ALLOC_SIZE + 1 := by
  unfold c8bytes
  rw [List.length_replicate]

/-- The size and capacity of the cap-filled buffer. -/
theorem c8fullbuf_size : c8fullbuf.size = BUFFER_MAX_ALLOC_SIZE ∧
    c8fullbuf.asize = BUFFER_MAX_ALLOC_SIZE := by
  constructor
  · simp [c8fullbuf, sd_buf.size]
  · rfl

/-- Counterexample to C8 as stated: a buffer grown once with a large
`unit` has `asize = 2 * cap - 2 > cap`, and an append whose required
capacity exceeds the cap then succeeds instead of being a no-op. -/
theorem c8_counterexample :
    BUFFER_MAX_ALLOC_SIZE < c8buf.size + c8bytes.length
      ∧ sd_bufput c8buf c8bytes ≠ c8buf := by
  have hb : c8buf
      = { data := [], asize := 2 * BUFFER_MAX_ALLOC_SIZE - 2,
          unit := BUFFER_MAX_ALLOC_SIZE - 1 } := by
    unfold c8buf sd_bufgrow growAsize BUFFER_MAX_ALLOC_SIZE
    norm_num
  have hlen := c8bytes_length
  have hsize : c8buf.size = 0 := by rw [hb]; rfl
  have hasize : c8buf.asize = 2 * BUFFER_MAX_ALLOC_SIZE - 2 := by rw [hb]
  have hcap : BUFFER_MAX_ALLOC_SIZE = 16777216 := by norm_num [BUFFER_MAX_ALLOC_SIZE]
  have hcond : ¬ c8buf.asize < c8buf.size + c8bytes.length := by
    rw [hasize, hsize, hlen, hcap]
    norm_num
  constructor
  · rw [hsize, hlen]
    omega
  · intro h
    unfold sd_bufput at h
    rw [if_neg hcond] at h
    have hl := congrArg (fun b : sd_buf => b.data.length) h
    simp only [List.length_append] at hl
    omega

/-- C8 as amended: a growth request beyond the cap returns `BUF_ENOMEM`
and leaves the buffer untouched; an append whose required capacity
exceeds the cap is a silent no-op provided it also exceeds the current
allocation (otherwise the bytes fit and the append proceeds). -/
theorem c8_grow_cap :
    (∀ (b : sd_buf) (neosz : Nat), BUFFER_MAX_ALLOC_SIZE < neosz →
        sd_bufgrow b neosz = (.BUF_ENOMEM, b))
    ∧ (∀ (b : sd_buf) (bytes : List Nat), b.asize < b.size + bytes.length →
        BUFFER_MAX_ALLOC_SIZE < b.size + bytes.length → sd_bufput b bytes = b)
    ∧ (∀ (b : sd_buf) (c : Nat), b.asize < b.size + 1 →
        BUFFER_MAX_ALLOC_SIZE < b.size + 1 → sd_bufputc b c = b) := by
  refine ⟨fun b neosz h => ?_, fun b bytes h1 h2 => ?_, fun b c h1 h2 => ?_⟩
  · unfold sd_bufgrow
    rw [if_pos h]
  · unfold sd_bufput sd_bufgrow
    rw [if_pos h1, if_pos h2]
  · unfold sd_bufputc sd_bufgrow
    rw [if_pos h1, if_pos h2]

/-- Witness for C8: over-cap requests on a fresh unit-1 buffer and on a
buffer filled to the cap. -/
theorem c8_grow_cap_witness :
    sd_bufgrow { data := [], asize := 0, unit := 1 } (BUFFER_MAX_ALLOC_SIZE + 1)
        = (.BUF_ENOMEM, { data := [], asize := 0, unit := 1 })
      ∧ sd_bufput { data := [], asize := 0, unit := 1 } c8bytes
        = { data := [], asize := 0, unit := 1 }
      ∧ sd_bufputc c8fullbuf 32 = c8fullbuf :=
  ⟨c8_grow_cap.1 _ _ (by omega),
   c8_grow_cap.2.1 _ _
     (by rw [c8bytes_length]; simp [sd_buf.size, BUFFER_MAX_ALLOC_SIZE])
     (by rw [c8bytes_length]; simp [sd_buf.size, BUFFER_MAX_ALLOC_SIZE]),
   c8_grow_cap.2.2 _ _
     (by rw [c8fullbuf_size.1, c8fullbuf_size.2]; omega)
     (by rw [c8fullbuf_size.1]; omega)⟩

/-! ### C2: autolink delimiter balancing -/

/-- The counting loop returns the occurrence counts of the opening and
closing bytes (the closing count stays 0 when both bytes coincide, as
with a quote, since the `else if` never fires). -/
theorem countPair_eq (copen cclose : Nat) : ∀ l : List Nat,
    countPair l copen cclose
      = (l.count copen, if copen = cclose then 0 else l.count cclose) := by
  intro l
  induction l with
  | nil => simp [countPair]
  | cons b rest ih =>
      rw [countPair, ih]
      by_cases hbo : b = copen
      · by_cases hcc : copen = cclose
        · simp [hbo, hcc, List.count_cons]
        · have hbc : b ≠ cclose := by rw [hbo]; exact hcc
          simp [hbo, hcc, hbc, List.count_cons]
      · by_cases hbc : b = cclose
        · have hcc : copen ≠ cclose := fun h => hbo (hbc.trans h.symm)
          have hcc2 : ¬cclose = copen := fun h => hcc h.symm
          simp [hbo, hbc, hcc, hcc2, List.count_cons]
        · by_cases hcc : copen = cclose
          · simp [hbo, hbc, hcc, List.count_cons]
          · simp [hbo, hbc, hcc, List.count_cons]

/-- Counterexample to C2 as stated: on the span `a))` the source shrinks
once and returns 2; re-testing after the shrink would shrink again to 1. -/
theorem c2_counterexample :
    autolink_delim [97, 41, 41] 3 0 3 ≠ autolinkDelimClaimed [97, 41, 41] 3 := by
  simp [autolink_delim, autolinkDelimClaimed, delimAngle, delimPeel, delimRetest,
    countPair, copenOf, entityBack]

/-- C2 as amended: after the peel phase the balance check runs once — a
count mismatch shrinks the span by exactly one, with no re-test — and a
trailing `?`, `!`, `.` or `,` is always peeled before that check. -/
theorem c2_delim_single_shrink :
    (∀ (data : List Nat) (link_end max_rewind size : Nat),
        autolink_delim data link_end max_rewind size
          = (let lp := delimPeel data (delimAngle data link_end)
             if lp = 0 then 0
             else
               let cclose := data.getD (lp - 1) 0
               let copen := copenOf cclose
               if copen ≠ 0 ∧ ((if copen = cclose then 0 else (data.take lp).count cclose)
                   ≠ (data.take lp).count copen)
               then lp - 1 else lp))
    ∧ (∀ (data : List Nat) (le : Nat), 1 ≤ le →
        (data.getD (le - 1) 0 = 63 ∨ data.getD (le - 1) 0 = 33
          ∨ data.getD (le - 1) 0 = 46 ∨ data.getD (le - 1) 0 = 44) →
        delimPeel data le = delimPeel data (le - 1)) := by
  constructor
  · intro data link_end max_rewind size
    simp only [autolink_delim, countPair_eq]
    split_ifs <;> tauto
  · intro data le h1 hset
    rw [delimPeel]
    rw [if_neg (by omega)]
    simp only []
    rw [if_pos ?cond]
    case cond => rcases hset with h | h | h | h <;> tauto

/-- Witness for C2: a lone trailing `.` is peeled. -/
theorem c2_delim_single_shrink_witness :
    delimPeel [46] 1 = delimPeel [46] 0 :=
  c2_delim_single_shrink.2 [46] 1 (by norm_num) (by norm_num)

/-! ### C3: the entity recognizer -/

/-- C3 (code bug): on input `&;` the recognizer consumes and dispatches 2
bytes even though the pattern `&#?[A-Za-z0-9]+;` from the claim — and
from the comment above `char_entity` — requires at least one
alphanumeric byte. -/
theorem c3_entity_bug :
    char_entity [38, 59] = 2 ∧ entityClaimMatch [38, 59] = false := by
  constructor
  · rfl
  · rfl

/-! ### C1: the code-span recognizer

Helper lemmas about `takeWhile`, `dropWhile` and `reverse`. -/

/-- A `takeWhile` prefix is no longer than the list. -/
theorem takeWhile_len_le (p : Nat → Bool) : ∀ l : List Nat,
    (l.takeWhile p).length ≤ l.length := by
  intro l
  induction l with
  | nil => simp
  | cons a t ih =>
      rw [List.takeWhile_cons]
      by_cases h : p a = true
      · rw [if_pos h]
        simpa using ih
      · rw [if_neg h]
        simp

/-- `dropWhile` drops exactly the `takeWhile` prefix. -/
theorem dropWhile_eq_drop_len (p : Nat → Bool) : ∀ l : List Nat,
    l.dropWhile p = l.drop (l.takeWhile p).length := by
  intro l
  induction l with
  | nil => simp
  | cons a t ih =>
      rw [List.dropWhile_cons, List.takeWhile_cons]
      by_cases h : p a = true
      · rw [if_pos h, if_pos h, ih]
        simp
      · rw [if_neg h, if_neg h]
        simp

/-- `takeWhile` commutes with `take`. -/
theorem takeWhile_take_comm (p : Nat → Bool) : ∀ (l : List Nat) (k : Nat),
    (l.take k).takeWhile p = (l.takeWhile p).take k := by
  intro l
  induction l with
  | nil => simp
  | cons a t ih =>
      intro k
      cases k with
      | zero => simp
      | succ k' =>
          rw [List.take_succ_cons, List.takeWhile_cons, List.takeWhile_cons]
          by_cases h : p a = true
          · rw [if_pos h, if_pos h, List.take_succ_cons, ih]
          · rw [if_neg h, if_neg h]
            simp

/-- Reversing a `drop` is a `take` of the reverse. -/
theorem reverse_drop_eq (l : List Nat) (m : Nat) :
    (l.drop m).reverse = l.reverse.take (l.length - m) := by
  by_cases hm : m ≤ l.length
  · rw [List.take_reverse, show l.length - (l.length - m) = m by omega]
  · rw [List.drop_eq_nil_iff_le.mpr (by omega)]
    rw [show l.length - m = 0 by omega]
    simp

/-- `trimSpaces` as an index slice: drop the leading space run and cut the
trailing space run. -/
theorem trimSpaces_take_drop (l : List Nat) :
    trimSpaces l
      = (l.take (l.length - (l.reverse.takeWhile (· == 32)).length)).drop
          (l.takeWhile (· == 32)).length := by
  unfold trimSpaces
  rw [dropWhile_eq_drop_len (· == 32) l]
  rw [dropWhile_eq_drop_len (· == 32) ((l.drop (l.takeWhile (· == 32)).length).reverse)]
  rw [reverse_drop_eq l]
  rw [takeWhile_take_comm, List.length_take]
  rw [reverse_drop_eq (l.reverse.take (l.length - (l.takeWhile (· == 32)).length))]
  rw [show (l.reverse.take (l.length - (l.takeWhile (· == 32)).length)).reverse
        = l.drop (l.takeWhile (· == 32)).length from by
      rw [← reverse_drop_eq l, List.reverse_reverse]]
  rw [List.length_take, List.length_reverse]
  rw [List.drop_take]
  congr 1
  have h2 := takeWhile_len_le (· == 32) l
  have h3 := takeWhile_len_le (· == 32) l.reverse
  have h4 := l.length_reverse
  omega

/-- The leading trim stops at the first non-space (bounded by the fuel). -/
theorem fBeginGo_eq (data : List Nat) : ∀ (fuel b : Nat),
    fBeginGo data b fuel
      = b + min ((data.drop b).takeWhile (· == 32)).length fuel := by
  intro fuel
  induction fuel with
  | zero => intro b; simp [fBeginGo]
  | succ fuel ih =>
      intro b
      rw [fBeginGo]
      by_cases hlt : b < data.length
      · have hdrop : data.drop b = data[b] :: data.drop (b + 1) :=
          List.drop_eq_getElem_cons hlt
        have hgetD : data.getD b 0 = data[b] := by
          rw [List.getD_eq_getElem?_getD, List.getElem?_eq_getElem hlt]
          rfl
        by_cases hsp : data[b] = 32
        · rw [if_pos (by rw [hgetD]; exact hsp), ih]
          rw [hdrop, List.takeWhile_cons]
          rw [if_pos (by simp [hsp])]
          simp only [List.length_cons]
          omega
        · rw [if_neg (by rw [hgetD]; exact hsp)]
          rw [hdrop, List.takeWhile_cons]
          rw [if_neg (by simp [hsp])]
          simp
      · have hdrop : data.drop b = [] := List.drop_eq_nil_iff_le.mpr (by omega)
        have hgetD : data.getD b 0 = 0 := by
          rw [List.getD_eq_getElem?_getD, List.getElem?_eq_none (by omega)]
          rfl
        rw [if_neg (by rw [hgetD]; omega)]
        rw [hdrop]
        simp

/-- The trailing trim stops at the last non-space (bounded by the fuel);
stated for in-range `f`. -/
theorem fEndGo_eq (data : List Nat) : ∀ (fuel f : Nat), f ≤ data.length →
    fEndGo data f fuel
      = f - min ((data.take f).reverse.takeWhile (· == 32)).length fuel := by
  intro fuel
  induction fuel with
  | zero => intro f _; simp [fEndGo]
  | succ fuel ih =>
      intro f hf
      rw [fEndGo]
      cases f with
      | zero =>
          by_cases hsp : data.getD 0 0 = 32
          · rw [if_pos hsp, ih 0 (by omega)]
            omega
          · rw [if_neg hsp]
            simp
      | succ g =>
          have hg : g < data.length := by omega
          have htake : data.take (g + 1) = data.take g ++ [data[g]] := by
            rw [List.take_succ, List.getElem?_eq_getElem hg]
            rfl
          have hrev : (data.take (g + 1)).reverse
              = data[g] :: (data.take g).reverse := by
            rw [htake, List.reverse_append]
            rfl
          have hgetD : data.getD (g + 1 - 1) 0 = data[g] := by
            rw [List.getD_eq_getElem?_getD]
            rw [show g + 1 - 1 = g by omega, List.getElem?_eq_getElem hg]
            rfl
          by_cases hsp : data[g] = 32
          · rw [if_pos (by rw [hgetD]; exact hsp)]
            rw [show g + 1 - 1 = g by omega, ih g (by omega)]
            rw [hrev, List.takeWhile_cons, if_pos (by simp [hsp])]
            simp only [List.length_cons]
            omega
          · rw [if_neg (by rw [hgetD]; exact hsp)]
            rw [hrev, List.takeWhile_cons, if_neg (by simp [hsp])]
            simp

/-- `tickRun` is the length of the leading backtick run. -/
theorem tickRun_eq_takeWhile : ∀ l : List Nat,
    tickRun l = (l.takeWhile (· == 96)).length := by
  intro l
  induction l with
  | nil => simp [tickRun]
  | cons b t ih =>
      rw [tickRun, List.takeWhile_cons]
      by_cases h : b = 96
      · rw [if_pos h, if_pos (by simp [h]), ih]
        simp
      · rw [if_neg h, if_neg (by simp [h])]
        simp

/-- The opening run is within the input. -/
theorem tickRun_le (l : List Nat) : tickRun l ≤ l.length := by
  rw [tickRun_eq_takeWhile]
  exact takeWhile_len_le _ l

/-- The opening run consists of backticks. -/
theorem tickRun_take (l : List Nat) :
    l.take (tickRun l) = List.replicate (tickRun l) 96 := by
  induction l with
  | nil => simp [tickRun]
  | cons b t ih =>
      rw [tickRun]
      by_cases h : b = 96
      · rw [if_pos h, List.take_succ_cons, ih, h, List.replicate_succ]
      · rw [if_neg h]
        simp

/-- Reading one byte out of a backtick slice. -/
theorem slice_replicate_byte {data : List Nat} {s t n k : Nat}
    (h : (data.take t).drop s = List.replicate n 96) (hk : k < n) :
    data[s + k]? = some 96 ∧ s + k < t := by
  have h2 := congrArg (fun l : List Nat => l[k]?) h
  simp only [List.getElem?_drop, List.getElem?_take, List.getElem?_replicate,
    if_pos hk] at h2
  by_cases hst : s + k < t
  · rw [if_pos hst] at h2
    exact ⟨h2, hst⟩
  · rw [if_neg hst] at h2
    exact absurd h2 (by simp)

/-- Unfolding of the closing-position test. -/
theorem isCloseAt_iff {data : List Nat} {nb e : Nat} :
    isCloseAt data nb e = true
      ↔ 2 * nb ≤ e ∧ (data.take e).drop (e - nb) = List.replicate nb 96 := by
  simp [isCloseAt]

/-- The scan loop exits as soon as `i` reaches `nb`. -/
theorem csScan_stop (nb : Nat) : ∀ (l : List Nat) (j e : Nat), ¬ j < nb →
    csScan l nb j e = (e, j) := by
  intro l
  cases l <;> intro j e h <;> simp [csScan, h]

/-- `find?` over `range` returns the least witness. -/
theorem range_find?_some {p : Nat → Bool} : ∀ m x : Nat, x < m → p x = true →
    (∀ y, y < x → p y = false) → (List.range m).find? p = some x := by
  intro m
  induction m with
  | zero => intro x hx _ _; exact absurd hx (by omega)
  | succ n ih =>
      intro x hx hp hmin
      rw [List.range_succ, List.find?_append]
      by_cases hxn : x < n
      · rw [ih x hxn hp hmin]
        rfl
      · have hxe : x = n := by omega
        have hnone : (List.range n).find? p = none := by
          rw [List.find?_eq_none]
          intro y hy
          rw [List.mem_range] at hy
          rw [hmin y (by omega)]
          simp
        rw [hnone, Option.none_or, ← hxe]
        simp [List.find?, hp]

/-- The scan loop of `char_codespan`, with its invariants: `i` is the
exact length of the trailing backtick run of `data[nb..e)`, no closing
position lies at or before `e`, and the run lies strictly after the
opening delimiter.  Either the loop stops at the least closing position,
or it exhausts the input and no closing position exists. -/
theorem csScan_go (data : List Nat) (nb : Nat) (hnb : 1 ≤ nb) :
    ∀ (l : List Nat) (e i : Nat),
      data.drop e = l → i < nb → nb + i ≤ e → e ≤ data.length →
      (data.take e).drop (e - i) = List.replicate i 96 →
      (e - i = nb ∨ data.getD (e - i - 1) 0 ≠ 96) →
      (∀ t, t ≤ e → isCloseAt data nb t = false) →
      ((csScan l nb i e).2 = nb
        ∧ isCloseAt data nb (csScan l nb i e).1 = true
        ∧ (csScan l nb i e).1 ≤ data.length
        ∧ ∀ t, t < (csScan l nb i e).1 → isCloseAt data nb t = false)
      ∨ ((csScan l nb i e).2 < nb ∧ (csScan l nb i e).1 = data.length
        ∧ ∀ t, t ≤ data.length → isCloseAt data nb t = false) := by
  intro l
  induction l with
  | nil =>
      intro e i hdrop hi _ helen _ _ h3
      right
      have he : data.length ≤ e := List.drop_eq_nil_iff_le.mp hdrop
      have hee : e = data.length := by omega
      simp only [csScan]
      exact ⟨hi, hee, fun t ht => h3 t (by omega)⟩
  | cons b rest ih =>
      intro e i hdrop hi hnbi helen hA hC h3
      have helt : e < data.length := by
        by_contra hc
        rw [List.drop_eq_nil_iff_le.mpr (by omega)] at hdrop
        exact List.noConfusion hdrop
      have hb : data[e]? = some b := by
        have h0 : (data.drop e)[0]? = some b := by rw [hdrop]; simp
        rwa [List.getElem?_drop, Nat.add_zero] at h0
      have hgetDe : data.getD e 0 = b := by
        rw [List.getD_eq_getElem?_getD, hb]
        rfl
      have hrest : data.drop (e + 1) = rest := by
        have h1 : (data.drop e).drop 1 = data.drop (e + 1) := by
          rw [List.drop_drop]
        rw [← h1, hdrop]
        rfl
      have htk : data.take (e + 1) = data.take e ++ [b] := by
        rw [List.take_succ, hb]
        rfl
      simp only [csScan]
      rw [if_pos hi]
      by_cases hb96 : b = 96
      · rw [if_pos hb96]
        by_cases hstop : i + 1 = nb
        · rw [hstop, csScan_stop nb rest nb (e + 1) (by omega)]
          left
          have hA' : (data.take (e + 1)).drop (e + 1 - nb) = List.replicate nb 96 := by
            rw [htk]
            rw [List.drop_append_of_le_length (by rw [List.length_take]; omega)]
            rw [show e + 1 - nb = e - i by omega, hA, hb96, ← hstop]
            rw [List.replicate_add]
            rfl
          refine ⟨rfl, ?_, by omega, ?_⟩
          · rw [isCloseAt_iff]
            exact ⟨by omega, hA'⟩
          · intro t ht
            exact h3 t (by omega)
        · refine ih (e + 1) (i + 1) hrest (by omega) (by omega) (by omega) ?_ ?_ ?_
          · rw [htk]
            rw [List.drop_append_of_le_length (by rw [List.length_take]; omega)]
            rw [show e + 1 - (i + 1) = e - i by omega, hA, hb96]
            rw [List.replicate_add]
            rfl
          · rw [show e + 1 - (i + 1) - 1 = e - i - 1 by omega]
            rcases hC with hCa | hCb
            · left; omega
            · right; exact hCb
          · intro t ht
            by_cases hte : t ≤ e
            · exact h3 t hte
            · have hte1 : t = e + 1 := by omega
              subst hte1
              by_contra hcl
              rw [Bool.not_eq_false, isCloseAt_iff] at hcl
              obtain ⟨hg, hsl⟩ := hcl
              rcases hC with hCa | hCb
              · omega
              · have hk := slice_replicate_byte hsl
                  (show nb - i - 2 < nb by omega)
                rw [show e + 1 - nb + (nb - i - 2) = e - i - 1 by omega] at hk
                apply hCb
                rw [List.getD_eq_getElem?_getD, hk.1]
                rfl
      · rw [if_neg hb96]
        refine ih (e + 1) 0 hrest (by omega) (by omega) (by omega) ?_ ?_ ?_
        · rw [List.drop_eq_nil_iff_le.mpr (by rw [List.length_take]; omega)]
          rfl
        · right
          rw [show e + 1 - 0 - 1 = e by omega, hgetDe]
          exact hb96
        · intro t ht
          by_cases hte : t ≤ e
          · exact h3 t hte
          · have hte1 : t = e + 1 := by omega
            subst hte1
            by_contra hcl
            rw [Bool.not_eq_false, isCloseAt_iff] at hcl
            obtain ⟨hg, hsl⟩ := hcl
            have hk := slice_replicate_byte hsl (show nb - 1 < nb by omega)
            rw [show e + 1 - nb + (nb - 1) = e by omega] at hk
            apply hb96
            exact Option.some.inj (hb.symm.trans hk.1)

/-- At a closing position the leading trim stops inside the interior (the
closing backtick is not a space), so `f_begin` lands after exactly the
interior's leading space run. -/
theorem fBegin_at_close (data : List Nat) (nb e : Nat) (hnb : 1 ≤ nb)
    (hle : e ≤ data.length) (hg : 2 * nb ≤ e)
    (hsl : (data.take e).drop (e - nb) = List.replicate nb 96) :
    fBegin data nb e
      = nb + (((data.take (e - nb)).drop nb).takeWhile (· == 32)).length := by
  unfold fBegin
  rw [fBeginGo_eq]
  congr 1
  have hsplit : data.drop nb = (data.take (e - nb)).drop nb ++ data.drop (e - nb) := by
    conv_lhs => rw [← List.take_append_drop (e - nb) data]
    rw [List.drop_append_of_le_length (by rw [List.length_take]; omega)]
  have hbyte := slice_replicate_byte hsl (show 0 < nb by omega)
  rw [Nat.add_zero] at hbyte
  have hlt : e - nb < data.length := by omega
  have hv : data[e - nb] = 96 := by
    have h1 := hbyte.1
    rwa [List.getElem?_eq_getElem hlt, Option.some.injEq] at h1
  have hdropc : data.drop (e - nb) = 96 :: data.drop (e - nb + 1) := by
    rw [List.drop_eq_getElem_cons hlt, hv]
  have hIntlen : ((data.take (e - nb)).drop nb).length = e - nb - nb := by
    rw [List.length_drop, List.length_take]
    omega
  have hLw : ((data.drop nb).takeWhile (· == 32)).length
      = (((data.take (e - nb)).drop nb).takeWhile (· == 32)).length := by
    rw [hsplit, hdropc, List.takeWhile_append]
    split_ifs with hcase
    · rw [List.takeWhile_cons, if_neg (by simp)]
      rw [List.length_append]
      simpa using hcase.symm
    · rfl
  rw [hLw]
  refine Nat.min_eq_left ?_
  have := takeWhile_len_le (· == 32) ((data.take (e - nb)).drop nb)
  omega

/-- At a closing position the trailing trim stops at the opener (whose
last byte is a backtick), so `f_end` cuts exactly the interior's
trailing space run. -/
theorem fEnd_at_close (data : List Nat) (nb e : Nat) (hnb : 1 ≤ nb)
    (hle : e ≤ data.length) (hg : 2 * nb ≤ e)
    (hopen : data.take nb = List.replicate nb 96) :
    fEnd data nb (e - nb)
      = (e - nb)
        - (((data.take (e - nb)).drop nb).reverse.takeWhile (· == 32)).length := by
  unfold fEnd
  rw [fEndGo_eq data (e - nb - nb) (e - nb) (by omega)]
  congr 1
  have htksplit : data.take (e - nb) = data.take nb ++ (data.take (e - nb)).drop nb := by
    conv_lhs => rw [← List.take_append_drop nb (data.take (e - nb))]
    rw [List.take_take, show nb ⊓ (e - nb) = nb by omega]
  have hrevsplit : (data.take (e - nb)).reverse
      = ((data.take (e - nb)).drop nb).reverse ++ List.replicate nb 96 := by
    conv_lhs => rw [htksplit]
    rw [List.reverse_append, hopen, List.reverse_replicate]
  have hIntlen : ((data.take (e - nb)).drop nb).length = e - nb - nb := by
    rw [List.length_drop, List.length_take]
    omega
  have hRw : ((data.take (e - nb)).reverse.takeWhile (· == 32)).length
      = (((data.take (e - nb)).drop nb).reverse.takeWhile (· == 32)).length := by
    rw [hrevsplit, List.takeWhile_append]
    split_ifs with hcase
    · have hnbsucc : List.replicate nb 96 = 96 :: List.replicate (nb - 1) 96 := by
        cases nb with
        | zero => omega
        | succ m => rw [List.replicate_succ]; norm_num
      rw [hnbsucc, List.takeWhile_cons, if_neg (by simp)]
      rw [List.length_append]
      simpa using hcase.symm
    · rfl
  rw [hRw]
  refine Nat.min_eq_left ?_
  have h1 := takeWhile_len_le (· == 32) (((data.take (e - nb)).drop nb).reverse)
  have h2 := List.length_reverse ((data.take (e - nb)).drop nb)
  omega

/-- The slice `data[f_begin .. f_end)` equals the corresponding slice of
the interior. -/
theorem slice_take_drop_eq (data : List Nat) (nb e lead trail : Nat)
    (hle : e ≤ data.length) (hg : 2 * nb ≤ e) :
    (data.take ((e - nb) - trail)).drop (nb + lead)
      = ((((data.take (e - nb)).drop nb).take
            (((data.take (e - nb)).drop nb).length - trail)).drop lead) := by
  have hIntlen : ((data.take (e - nb)).drop nb).length = e - nb - nb := by
    rw [List.length_drop, List.length_take]
    omega
  rw [hIntlen]
  rw [List.drop_take]
  conv_rhs => rw [List.drop_take]
  conv_rhs => rw [List.drop_drop]
  conv_rhs => rw [List.drop_take]
  conv_rhs => rw [List.take_take]
  rw [show (e - nb - nb - trail - lead) ⊓ (e - nb - (nb + lead))
      = e - nb - trail - (nb + lead) by omega]

/-- C1 as amended: with an opening run of `N ≥ 1` backticks, the code
span closes at the first later occurrence of `N` consecutive backticks
(even inside a longer run), the content is the interior with all leading
and trailing space bytes removed (a null buffer when nothing remains),
and if no such occurrence exists nothing is consumed. -/
theorem c1_codespan_amended (data : List Nat) (hnb : 1 ≤ tickRun data) :
    char_codespan data = codespanAmended data := by
  have hnble := tickRun_le data
  have hopen := tickRun_take data
  have h3init : ∀ t, t ≤ tickRun data → isCloseAt data (tickRun data) t = false := by
    intro t ht
    by_contra hcl
    rw [Bool.not_eq_false, isCloseAt_iff] at hcl
    omega
  have hAinit : (data.take (tickRun data)).drop (tickRun data - 0)
      = List.replicate 0 96 := by
    rw [Nat.sub_zero, List.drop_eq_nil_iff_le.mpr (by rw [List.length_take]; omega)]
    rfl
  have hgo := csScan_go data (tickRun data) hnb (data.drop (tickRun data))
      (tickRun data) 0 rfl (by omega) (by omega) hnble hAinit (Or.inl (by omega))
      h3init
  simp only [char_codespan, codespanAmended, closeEnd]
  rcases hsc : csScan (data.drop (tickRun data)) (tickRun data) 0 (tickRun data)
    with ⟨e, i⟩
  rw [hsc] at hgo
  simp only [] at hgo
  rcases hgo with ⟨hi2, hP, hle, hmin⟩ | ⟨hi2, he, hall⟩
  · subst hi2
    rw [if_neg (by omega)]
    rw [range_find?_some (data.length + 1) e (by omega) hP hmin]
    simp only []
    rw [isCloseAt_iff] at hP
    obtain ⟨hg, hsl⟩ := hP
    rw [fBegin_at_close data (tickRun data) e hnb hle hg hsl]
    rw [fEnd_at_close data (tickRun data) e hnb hle hg hopen]
    rw [trimSpaces_take_drop]
    rw [slice_take_drop_eq data (tickRun data) e _ _ hle hg]
    have hIntlen : ((data.take (e - tickRun data)).drop (tickRun data)).length
        = e - tickRun data - tickRun data := by
      rw [List.length_drop, List.length_take]
      omega
    have hlead := takeWhile_len_le (· == 32)
      ((data.take (e - tickRun data)).drop (tickRun data))
    have htrail := takeWhile_len_le (· == 32)
      (((data.take (e - tickRun data)).drop (tickRun data)).reverse)
    rw [List.length_reverse] at htrail
    have hlen_trim :
        ((((data.take (e - tickRun data)).drop (tickRun data)).take
            (((data.take (e - tickRun data)).drop (tickRun data)).length
              - (((data.take (e - tickRun data)).drop
                  (tickRun data)).reverse.takeWhile (· == 32)).length)).drop
          (((data.take (e - tickRun data)).drop
              (tickRun data)).takeWhile (· == 32)).length).length
          = (e - tickRun data - tickRun data
              - (((data.take (e - tickRun data)).drop
                  (tickRun data)).reverse.takeWhile (· == 32)).length)
            - (((data.take (e - tickRun data)).drop
                (tickRun data)).takeWhile (· == 32)).length := by
      rw [List.length_drop, List.length_take, hIntlen]
      omega
    by_cases hc : tickRun data
        + (((data.take (e - tickRun data)).drop
            (tickRun data)).takeWhile (· == 32)).length
        < e - tickRun data
          - (((data.take (e - tickRun data)).drop
              (tickRun data)).reverse.takeWhile (· == 32)).length
    · rw [if_pos hc]
      rw [if_neg ?notempty]
      case notempty =>
        rw [List.isEmpty_iff]
        intro h0
        have hzero := congrArg List.length h0
        rw [hlen_trim] at hzero
        simp at hzero
        omega
    · rw [if_neg hc]
      rw [if_pos ?empty]
      case empty =>
        rw [List.isEmpty_iff, ← List.length_eq_zero, hlen_trim]
        omega
  · rw [if_pos ⟨hi2, by omega⟩]
    rw [List.find?_eq_none.mpr ?nofind]
    case nofind =>
      intro x hx
      rw [List.mem_range] at hx
      rw [hall x (by omega)]
      simp

/-- Counterexample to C1 as stated: on `` `␣␣a``x` `` the source closes on
the first backtick of the ```` `` ```` run (a run of length 2, not
exactly 1) and trims all leading spaces, so it consumes 5 bytes with
content `a`; the claimed reading instead closes at the final lone
backtick with content `␣a``x` (one space trimmed per side). -/
theorem c1_counterexample :
    char_codespan [96, 32, 32, 97, 96, 96, 120, 96]
      ≠ codespanClaimed [96, 32, 32, 97, 96, 96, 120, 96] := by
  decide

/-- Witness for C1: `` `a` `` consumes 3 bytes with content `a`. -/
theorem c1_codespan_amended_witness :
    char_codespan [96, 97, 96] = codespanAmended [96, 97, 96] :=
  c1_codespan_amended [96, 97, 96] (by decide)

/-! ### Pool-balance lemmas -/

@[simp] theorem spanSize_newbufSpan (st : MDMut) :
    (newbufSpan st).spanSize = st.spanSize + 1 := rfl

@[simp] theorem blockSize_newbufSpan (st : MDMut) :
    (newbufSpan st).blockSize = st.blockSize := rfl

@[simp] theorem ilb_newbufSpan (st : MDMut) :
    (newbufSpan st).in_link_body = st.in_link_body := rfl

@[simp] theorem spanSize_popbufSpan (st : MDMut) :
    (popbufSpan st).spanSize = st.spanSize - 1 := rfl

@[simp] theorem blockSize_popbufSpan (st : MDMut) :
    (popbufSpan st).blockSize = st.blockSize := rfl

@[simp] theorem ilb_popbufSpan (st : MDMut) :
    (popbufSpan st).in_link_body = st.in_link_body := rfl

@[simp] theorem spanSize_newbufBlock (st : MDMut) :
    (newbufBlock st).spanSize = st.spanSize := rfl

@[simp] theorem blockSize_newbufBlock (st : MDMut) :
    (newbufBlock st).blockSize = st.blockSize + 1 := rfl

@[simp] theorem ilb_newbufBlock (st : MDMut) :
    (newbufBlock st).in_link_body = st.in_link_body := rfl

@[simp] theorem spanSize_popbufBlock (st : MDMut) :
    (popbufBlock st).spanSize = st.spanSize := rfl

@[simp] theorem blockSize_popbufBlock (st : MDMut) :
    (popbufBlock st).blockSize = st.blockSize - 1 := rfl

@[simp] theorem ilb_popbufBlock (st : MDMut) :
    (popbufBlock st).in_link_body = st.in_link_body := rfl

theorem poolInv_refl (st : MDMut) : PoolInv st st := ⟨rfl, rfl, Or.inl rfl⟩

theorem poolInv_trans {a b c : MDMut} (h1 : PoolInv a b) (h2 : PoolInv b c) :
    PoolInv a c := by
  obtain ⟨s1, b1, i1⟩ := h1
  obtain ⟨s2, b2, i2⟩ := h2
  refine ⟨s2.trans s1, b2.trans b1, ?_⟩
  rcases i2 with i2 | i2
  · rcases i1 with i1 | i1
    · exact Or.inl (i2.trans i1)
    · exact Or.inr (i2.trans i1)
  · exact Or.inr i2

theorem poolInv_newSpan_pop {st st2 : MDMut} (h : PoolInv (newbufSpan st) st2) :
    PoolInv st (popbufSpan st2) := by
  obtain ⟨s, b, i⟩ := h
  simp only [spanSize_newbufSpan, blockSize_newbufSpan, ilb_newbufSpan] at s b i
  exact ⟨by simp [s], by simpa using b, by simpa using i⟩

theorem poolInv_newBlock_pop {st st2 : MDMut}
    (h : PoolInv (newbufBlock st) st2) : PoolInv st (popbufBlock st2) := by
  obtain ⟨s, b, i⟩ := h
  simp only [spanSize_newbufBlock, blockSize_newbufBlock, ilb_newbufBlock]
    at s b i
  exact ⟨by simpa using s, by simp [b], by simpa using i⟩

theorem char_linebreak_poolInv (cfg : MDCfg) (ob : List Nat) (st : MDMut)
    (full : List Nat) (off : Nat) :
    PoolInv st (char_linebreak_r cfg ob st full off).2.2 := by
  unfold char_linebreak_r
  split
  · exact poolInv_refl st
  · cases cfg.cb.linebreak
    · exact poolInv_refl st
    · exact poolInv_refl st

theorem char_codespan_poolInv (cfg : MDCfg) (ob : List Nat) (st : MDMut)
    (full : List Nat) (off : Nat) :
    PoolInv st (char_codespan_r cfg ob st full off).2.2 := by
  unfold char_codespan_r
  cases char_codespan (full.drop off)
  · exact poolInv_refl st
  · cases cfg.cb.codespan
    · exact poolInv_refl st
    · exact poolInv_refl st

theorem char_escape_poolInv (cfg : MDCfg) (ob : List Nat) (st : MDMut)
    (full : List Nat) (off : Nat) :
    PoolInv st (char_escape_r cfg ob st full off).2.2 := by
  unfold char_escape_r
  dsimp only
  split
  · split
    · exact poolInv_refl st
    · cases cfg.cb.normal_text <;> exact poolInv_refl st
  · split <;> exact poolInv_refl st

theorem char_entity_poolInv (cfg : MDCfg) (ob : List Nat) (st : MDMut)
    (full : List Nat) (off : Nat) :
    PoolInv st (char_entity_r cfg ob st full off).2.2 := by
  unfold char_entity_r
  dsimp only
  split
  · exact poolInv_refl st
  · cases cfg.cb.entity <;> exact poolInv_refl st

theorem char_langle_poolInv (cfg : MDCfg) (ob : List Nat) (st : MDMut)
    (full : List Nat) (off : Nat) :
    PoolInv st (char_langle_tag_r cfg ob st full off).2.2 := by
  unfold char_langle_tag_r
  dsimp only
  split
  · cases cfg.cb.autolink with
    | none =>
        cases cfg.cb.raw_html_tag <;> dsimp only <;> split <;>
          exact poolInv_refl st
    | some al =>
        dsimp only
        split
        · split <;> exact ⟨by simp, by simp, Or.inl rfl⟩
        · cases cfg.cb.raw_html_tag <;> dsimp only <;> split <;>
            exact poolInv_refl st
  · exact poolInv_refl st

theorem char_www_poolInv (cfg : MDCfg) (ob : List Nat) (st : MDMut)
    (full : List Nat) (off : Nat) :
    PoolInv st (char_autolink_www_r cfg ob st full off).2.2 := by
  unfold char_autolink_www_r
  cases cfg.cb.link with
  | none => exact poolInv_refl st
  | some lk =>
      dsimp only
      split
      · exact poolInv_refl st
      · split
        · cases cfg.cb.normal_text <;>
            exact ⟨by simp, by simp, Or.inl rfl⟩
        · exact ⟨by simp, by simp, Or.inl rfl⟩

theorem char_email_poolInv (cfg : MDCfg) (ob : List Nat) (st : MDMut)
    (full : List Nat) (off : Nat) :
    PoolInv st (char_autolink_email_r cfg ob st full off).2.2 := by
  unfold char_autolink_email_r
  cases cfg.cb.autolink with
  | none => exact poolInv_refl st
  | some al =>
      dsimp only
      split
      · exact poolInv_refl st
      · split <;> exact ⟨by simp, by simp, Or.inl rfl⟩

theorem char_url_poolInv (cfg : MDCfg) (ob : List Nat) (st : MDMut)
    (full : List Nat) (off : Nat) :
    PoolInv st (char_autolink_url_r cfg ob st full off).2.2 := by
  unfold char_autolink_url_r
  cases cfg.cb.autolink with
  | none => exact poolInv_refl st
  | some al =>
      dsimp only
      split
      · exact poolInv_refl st
      · split <;> exact ⟨by simp, by simp, Or.inl rfl⟩

theorem fencedcode_poolInv (cfg : MDCfg) (ob : List Nat) (st : MDMut)
    (data : List Nat) : PoolInv st (parse_fencedcode_r cfg ob st data).2.2 := by
  unfold parse_fencedcode_r
  dsimp only
  split
  · exact poolInv_refl st
  · exact ⟨by simp, by simp, Or.inl rfl⟩

theorem blockcode_poolInv (cfg : MDCfg) (ob : List Nat) (st : MDMut)
    (data : List Nat) : PoolInv st (parse_blockcode_r cfg ob st data).2.2 :=
  ⟨by simp [parse_blockcode_r], by simp [parse_blockcode_r],
    Or.inl (by simp [parse_blockcode_r])⟩

theorem biInv_refl (st : MDMut) : BlockIlbInv st st := ⟨rfl, Or.inl rfl⟩

theorem biInv_newSpan {a b : MDMut} (h : BlockIlbInv a b) :
    BlockIlbInv a (newbufSpan b) := ⟨by simpa using h.1, by simpa using h.2⟩

theorem poolInv_restore {st u : MDMut} (h : BlockIlbInv st u) :
    PoolInv st { u with spanSize := st.spanSize } :=
  ⟨rfl, by simpa using h.1, by simpa using h.2⟩

theorem linkInlineFinish_bi (data : List Nat) (a b c d e : Nat) (st : MDMut) :
    BlockIlbInv st (linkInlineFinish data a b c d e st).2.2.2 := by
  unfold linkInlineFinish
  dsimp only
  refine ⟨?_, Or.inl ?_⟩
  · split_ifs <;> simp
  · split_ifs <;> simp

theorem emph1Go_poolInv {E : EngineFns} (hE : EngineInv E) (cfg : MDCfg)
    (em : List Nat → Bool × List Nat) (data : List Nat) (c : Nat) :
    ∀ fuel ob st i, PoolInv st (emph1Go E cfg em data c ob st i fuel).2.2 := by
  intro fuel
  induction fuel with
  | zero => intro ob st i; exact poolInv_refl st
  | succ fuel ih =>
      intro ob st i
      simp only [emph1Go]
      repeat' split
      all_goals first
        | exact poolInv_refl st
        | exact ih _ _ _
        | exact poolInv_newSpan_pop (hE.pi _ _ _)

theorem emph2Go_poolInv {E : EngineFns} (hE : EngineInv E)
    (rm : List Nat → Bool × List Nat) (data : List Nat) (c : Nat) :
    ∀ fuel ob st i, PoolInv st (emph2Go E rm data c ob st i fuel).2.2 := by
  intro fuel
  induction fuel with
  | zero => intro ob st i; exact poolInv_refl st
  | succ fuel ih =>
      intro ob st i
      simp only [emph2Go]
      repeat' split
      all_goals first
        | exact poolInv_refl st
        | exact ih _ _ _
        | exact poolInv_newSpan_pop (hE.pi _ _ _)

theorem emph3Go_poolInv {E : EngineFns} (hE : EngineInv E) (cfg : MDCfg)
    (full : List Nat) (off c : Nat) :
    ∀ fuel ob st i, PoolInv st (emph3Go E cfg full off c ob st i fuel).2.2 := by
  intro fuel
  induction fuel with
  | zero => intro ob st i; exact poolInv_refl st
  | succ fuel ih =>
      intro ob st i
      simp only [emph3Go]
      repeat' split
      all_goals first
        | exact poolInv_refl st
        | exact ih _ _ _
        | exact poolInv_newSpan_pop (hE.pi _ _ _)
        | exact hE.e1 _ _ _ _ _
        | exact hE.e2 _ _ _ _ _

theorem parse_emph1_poolInv {E : EngineFns} (hE : EngineInv E) (cfg : MDCfg)
    (ob : List Nat) (st : MDMut) (full : List Nat) (off c : Nat) :
    PoolInv st (parse_emph1_m E cfg ob st full off c).2.2 := by
  unfold parse_emph1_m
  dsimp only
  cases cfg.cb.emphasis
  · exact poolInv_refl st
  · exact emph1Go_poolInv hE cfg _ _ _ _ _ _ _

theorem parse_emph2_poolInv {E : EngineFns} (hE : EngineInv E) (cfg : MDCfg)
    (ob : List Nat) (st : MDMut) (full : List Nat) (off c : Nat) :
    PoolInv st (parse_emph2_m E cfg ob st full off c).2.2 := by
  unfold parse_emph2_m
  dsimp only
  cases (if c = 126 then cfg.cb.strikethrough else cfg.cb.double_emphasis)
  · exact poolInv_refl st
  · exact emph2Go_poolInv hE _ _ _ _ _ _ _

theorem parse_emph3_poolInv {E : EngineFns} (hE : EngineInv E) (cfg : MDCfg)
    (ob : List Nat) (st : MDMut) (full : List Nat) (off c : Nat) :
    PoolInv st (parse_emph3_m E cfg ob st full off c).2.2 :=
  emph3Go_poolInv hE cfg full off c _ ob st 0

theorem char_emphasis_poolInv {E : EngineFns} (hE : EngineInv E) (cfg : MDCfg)
    (ob : List Nat) (st : MDMut) (full : List Nat) (off : Nat) :
    PoolInv st (char_emphasis_m E cfg ob st full off).2.2 := by
  unfold char_emphasis_m
  dsimp only
  repeat' split
  all_goals first
    | exact poolInv_refl st
    | exact hE.e1 _ _ _ _ _
    | exact hE.e2 _ _ _ _ _
    | exact hE.e3 _ _ _ _ _

theorem char_superscript_poolInv {E : EngineFns} (hE : EngineInv E)
    (cfg : MDCfg) (ob : List Nat) (st : MDMut) (full : List Nat) (off : Nat) :
    PoolInv st (char_superscript_m E cfg ob st full off).2.2 := by
  unfold char_superscript_m
  cases cfg.cb.superscript
  · exact poolInv_refl st
  · dsimp only
    repeat' split
    all_goals first
      | exact poolInv_refl st
      | exact poolInv_newSpan_pop (hE.pi _ _ _)

theorem biInv_content {st stA : MDMut} (hbi : BlockIlbInv st stA) {st2 : MDMut}
    (h : PoolInv { newbufSpan stA with in_link_body := true } st2) :
    BlockIlbInv st { st2 with in_link_body := false } := by
  refine ⟨?_, Or.inr rfl⟩
  show st2.blockSize = st.blockSize
  have hb : st2.blockSize = stA.blockSize := h.2.1
  exact hb.trans hbi.1

theorem char_link_styled_bi (data : List Nat) (txt_e i2 : Nat) (nl : Bool)
    (st : MDMut) (r : Nat × Option (List Nat) × Option (List Nat) × MDMut)
    (heq : char_link_styled data txt_e i2 nl st = some r) :
    BlockIlbInv st r.2.2.2 := by
  unfold char_link_styled at heq
  dsimp only at heq
  repeat' split at heq
  all_goals first
    | exact Option.noConfusion heq
    | (simp only [Option.some.injEq] at heq
       subst heq
       first
         | exact biInv_refl st
         | exact biInv_newSpan (biInv_refl st)
         | exact linkInlineFinish_bi _ _ _ _ _ _ _)

theorem char_link_poolInv {E : EngineFns} (hE : EngineInv E) (cfg : MDCfg)
    (ob : List Nat) (st : MDMut) (full : List Nat) (off : Nat) :
    PoolInv st (char_link_m E cfg ob st full off).2.2 := by
  unfold char_link_m
  dsimp only
  split
  · exact poolInv_refl st
  · split
    · exact poolInv_refl st
    · split
      · exact poolInv_refl st
      · next r heq =>
          have hbi := char_link_styled_bi _ _ _ _ _ _ heq
          refine poolInv_restore ?_
          repeat' split
          all_goals first
            | exact hbi
            | exact biInv_newSpan hbi
            | exact biInv_content hbi (hE.pi _ _ _)
            | exact biInv_newSpan (biInv_content hbi (hE.pi _ _ _))

set_option maxHeartbeats 2000000 in
theorem dispatchChar_poolInv {E : EngineFns} (hE : EngineInv E) (cfg : MDCfg)
    (act : Nat) (ob : List Nat) (st : MDMut) (full : List Nat) (off : Nat) :
    PoolInv st (dispatchChar E cfg act ob st full off).2.2 := by
  unfold dispatchChar
  split_ifs
  exacts [char_emphasis_poolInv hE cfg ob st full off,
    char_codespan_poolInv cfg ob st full off,
    char_linebreak_poolInv cfg ob st full off,
    char_link_poolInv hE cfg ob st full off,
    char_langle_poolInv cfg ob st full off,
    char_escape_poolInv cfg ob st full off,
    char_entity_poolInv cfg ob st full off,
    char_url_poolInv cfg ob st full off,
    char_email_poolInv cfg ob st full off,
    char_www_poolInv cfg ob st full off,
    char_superscript_poolInv hE cfg ob st full off,
    poolInv_refl st]

set_option maxHeartbeats 2000000 in
theorem piGo_poolInv {E : EngineFns} (hE : EngineInv E) (cfg : MDCfg)
    (full : List Nat) :
    ∀ fuel ob st i e, PoolInv st (piGo E cfg full ob st i e fuel).2 := by
  intro fuel
  induction fuel with
  | zero => intro ob st i e; exact poolInv_refl st
  | succ fuel ih =>
      intro ob st i e
      simp only [piGo]
      repeat' split
      all_goals first
        | exact poolInv_refl st
        | exact poolInv_trans (dispatchChar_poolInv hE cfg _ _ _ _ _)
            (ih _ _ _ _)

theorem parse_inline_poolInv {E : EngineFns} (hE : EngineInv E) (cfg : MDCfg)
    (ob : List Nat) (st : MDMut) (data : List Nat) :
    PoolInv st (parse_inline_m E cfg ob st data).2 := by
  unfold parse_inline_m
  split
  · exact poolInv_refl st
  · exact piGo_poolInv hE cfg data _ _ _ _ _

theorem parse_atxheader_poolInv {E : EngineFns} (hE : EngineInv E)
    (cfg : MDCfg) (ob : List Nat) (st : MDMut) (data : List Nat) :
    PoolInv st (parse_atxheader_m E cfg ob st data).2.2 := by
  unfold parse_atxheader_m
  dsimp only
  split
  · exact poolInv_newSpan_pop (hE.pi _ _ _)
  · exact poolInv_refl st

theorem parse_blockquote_poolInv {E : EngineFns} (hE : EngineInv E)
    (cfg : MDCfg) (ob : List Nat) (st : MDMut) (data : List Nat) :
    PoolInv st (parse_blockquote_m E cfg ob st data).2.2 :=
  poolInv_newBlock_pop (hE.pb _ _ _)

set_option maxHeartbeats 2000000 in
theorem parse_paragraph_poolInv {E : EngineFns} (hE : EngineInv E)
    (cfg : MDCfg) (ob : List Nat) (st : MDMut) (data : List Nat) :
    PoolInv st (parse_paragraph_m E cfg ob st data).2.2 := by
  unfold parse_paragraph_m
  dsimp only
  repeat' split
  all_goals first
    | exact poolInv_newBlock_pop (hE.pi _ _ _)
    | exact poolInv_newSpan_pop (hE.pi _ _ _)
    | exact poolInv_trans (poolInv_newBlock_pop (hE.pi _ _ _))
        (poolInv_newSpan_pop (hE.pi _ _ _))

set_option maxHeartbeats 2000000 in
theorem parse_listitem_poolInv {E : EngineFns} (hE : EngineInv E)
    (cfg : MDCfg) (ob : List Nat) (st : MDMut) (data : List Nat) (flags : Nat) :
    PoolInv st (parse_listitem_m E cfg ob st data flags).2.2.2 := by
  unfold parse_listitem_m
  dsimp only
  repeat' split
  all_goals first
    | exact poolInv_refl st
    | exact poolInv_newSpan_pop (poolInv_newSpan_pop
        (poolInv_trans (hE.pb _ _ _) (hE.pb _ _ _)))
    | exact poolInv_newSpan_pop (poolInv_newSpan_pop (hE.pb _ _ _))
    | exact poolInv_newSpan_pop (poolInv_newSpan_pop
        (poolInv_trans (hE.pi _ _ _) (hE.pb _ _ _)))
    | exact poolInv_newSpan_pop (poolInv_newSpan_pop (hE.pi _ _ _))

theorem listGo_poolInv {E : EngineFns} (hE : EngineInv E) (data : List Nat) :
    ∀ fuel wb st i flags, PoolInv st (listGo E data wb st i flags fuel).2.1 := by
  intro fuel
  induction fuel with
  | zero => intro wb st i flags; exact poolInv_refl st
  | succ fuel ih =>
      intro wb st i flags
      simp only [listGo]
      repeat' split
      all_goals first
        | exact poolInv_refl st
        | exact hE.li _ _ _ _
        | exact poolInv_trans (hE.li _ _ _ _) (ih _ _ _ _)

theorem parse_list_poolInv {E : EngineFns} (hE : EngineInv E) (cfg : MDCfg)
    (ob : List Nat) (st : MDMut) (data : List Nat) (flags : Nat) :
    PoolInv st (parse_list_m E cfg ob st data flags).2.2 :=
  poolInv_newBlock_pop (listGo_poolInv hE data _ _ _ _ _)

theorem tableCellsGo_poolInv {E : EngineFns} (hE : EngineInv E) (cfg : MDCfg)
    (data : List Nat) (columns : Nat) (cd : List Nat) (hf : Nat) :
    ∀ fuel row st i col,
      PoolInv st (tableCellsGo E cfg data columns cd hf row st i col fuel).2.1 := by
  intro fuel
  induction fuel with
  | zero => intro row st i col; exact poolInv_refl st
  | succ fuel ih =>
      intro row st i col
      simp only [tableCellsGo]
      repeat' split
      all_goals first
        | exact poolInv_refl st
        | exact poolInv_trans (poolInv_newSpan_pop (hE.pi _ _ _)) (ih _ _ _ _)

theorem parse_table_row_poolInv {E : EngineFns} (hE : EngineInv E)
    (cfg : MDCfg) (ob : List Nat) (st : MDMut) (data : List Nat)
    (columns : Nat) (cd : List Nat) (hf : Nat) :
    PoolInv st (parse_table_row_m E cfg ob st data columns cd hf).2 := by
  unfold parse_table_row_m
  dsimp only
  split
  · exact poolInv_refl st
  · exact poolInv_newSpan_pop (tableCellsGo_poolInv hE cfg data columns cd hf
      _ _ _ _ _)

set_option maxHeartbeats 2000000 in
theorem parse_table_header_poolInv {E : EngineFns} (hE : EngineInv E)
    (cfg : MDCfg) (ob : List Nat) (st : MDMut) (data : List Nat) :
    PoolInv st (parse_table_header_m E cfg ob st data).2.2.2.2 := by
  unfold parse_table_header_m
  dsimp only
  repeat' split
  all_goals first
    | exact poolInv_refl st
    | exact hE.trow _ _ _ _ _ _

theorem tableBodyGo_poolInv {E : EngineFns} (hE : EngineInv E)
    (data : List Nat) (columns : Nat) (cd : List Nat) :
    ∀ fuel bw st i, PoolInv st (tableBodyGo E data columns cd bw st i fuel).2.1 := by
  intro fuel
  induction fuel with
  | zero => intro bw st i; exact poolInv_refl st
  | succ fuel ih =>
      intro bw st i
      simp only [tableBodyGo]
      repeat' split
      all_goals first
        | exact poolInv_refl st
        | exact poolInv_trans (hE.trow _ _ _ _ _ _) (ih _ _ _)

theorem parse_table_poolInv {E : EngineFns} (hE : EngineInv E) (cfg : MDCfg)
    (ob : List Nat) (st : MDMut) (data : List Nat) :
    PoolInv st (parse_table_m E cfg ob st data).2.2 := by
  unfold parse_table_m
  dsimp only
  split
  · exact poolInv_newSpan_pop (poolInv_newBlock_pop
      (poolInv_trans (hE.th _ _ _) (tableBodyGo_poolInv hE data _ _ _ _ _ _)))
  · exact poolInv_newSpan_pop (poolInv_newBlock_pop (hE.th _ _ _))

theorem pbStep3_poolInv {E : EngineFns} (hE : EngineInv E) (cfg : MDCfg)
    (beg : Nat) (ob2 : List Nat) (st2 : MDMut) (txt : List Nat) :
    PoolInv st2 (pbStep3 E cfg beg ob2 st2 txt).2.1 := by
  unfold pbStep3
  dsimp only
  repeat' split
  all_goals first
    | exact hE.bq _ _ _
    | exact blockcode_poolInv cfg ob2 st2 txt
    | exact hE.ls _ _ _ _
    | exact hE.par _ _ _

theorem pbStep2_poolInv {E : EngineFns} (hE : EngineInv E) (cfg : MDCfg)
    (beg : Nat) (fcr : Nat × List Nat × MDMut) (txt : List Nat) :
    PoolInv fcr.2.2 (pbStep2 E cfg beg fcr txt).2.1 := by
  unfold pbStep2
  dsimp only
  repeat' split
  all_goals first
    | exact poolInv_refl _
    | exact hE.tbl _ _ _
    | exact poolInv_trans (hE.tbl _ _ _) (pbStep3_poolInv hE cfg beg _ _ txt)
    | exact pbStep3_poolInv hE cfg beg _ _ txt

theorem pbStep_poolInv {E : EngineFns} (hE : EngineInv E) (cfg : MDCfg)
    (data : List Nat) (ob : List Nat) (st : MDMut) (beg : Nat) :
    PoolInv st (pbStep E cfg data ob st beg).2.1 := by
  unfold pbStep
  dsimp only
  repeat' split
  all_goals first
    | exact poolInv_refl st
    | exact hE.atx _ _ _
    | exact poolInv_trans (fencedcode_poolInv cfg ob st _)
        (pbStep2_poolInv hE cfg beg _ _)
    | exact pbStep2_poolInv hE cfg beg (0, ob, st) _

theorem pbGo_poolInv {E : EngineFns} (hE : EngineInv E) (cfg : MDCfg)
    (data : List Nat) :
    ∀ fuel ob st beg, PoolInv st (pbGo E cfg data ob st beg fuel).2 := by
  intro fuel
  induction fuel with
  | zero => intro ob st beg; exact poolInv_refl st
  | succ fuel ih =>
      intro ob st beg
      simp only [pbGo]
      split
      · exact poolInv_trans (pbStep_poolInv hE cfg data ob st beg) (ih _ _ _)
      · exact poolInv_refl st

theorem parse_block_poolInv {E : EngineFns} (hE : EngineInv E) (cfg : MDCfg)
    (ob : List Nat) (st : MDMut) (data : List Nat) :
    PoolInv st (parse_block_m E cfg ob st data).2 := by
  unfold parse_block_m
  split
  · exact poolInv_refl st
  · exact pbGo_poolInv hE cfg data _ _ _ _

theorem engineInv (cfg : MDCfg) : ∀ f, EngineInv (Engine cfg f) := by
  intro f
  induction f with
  | zero =>
      refine ⟨?_, ?_, ?_, ?_, ?_, ?_, ?_, ?_, ?_, ?_, ?_, ?_, ?_, ?_, ?_, ?_⟩
        <;> intros <;> exact poolInv_refl _
  | succ f ih =>
      refine ⟨?_, ?_, ?_, ?_, ?_, ?_, ?_, ?_, ?_, ?_, ?_, ?_, ?_, ?_, ?_, ?_⟩
      · exact fun ob st data => parse_inline_poolInv ih cfg ob st data
      · exact fun ob st full off => char_emphasis_poolInv ih cfg ob st full off
      · exact fun ob st full off => char_link_poolInv ih cfg ob st full off
      · exact fun ob st full off =>
          char_superscript_poolInv ih cfg ob st full off
      · exact fun ob st full off c =>
          parse_emph1_poolInv ih cfg ob st full off c
      · exact fun ob st full off c =>
          parse_emph2_poolInv ih cfg ob st full off c
      · exact fun ob st full off c =>
          parse_emph3_poolInv ih cfg ob st full off c
      · exact fun ob st data => parse_block_poolInv ih cfg ob st data
      · exact fun ob st data => parse_atxheader_poolInv ih cfg ob st data
      · exact fun ob st data => parse_blockquote_poolInv ih cfg ob st data
      · exact fun ob st data => parse_paragraph_poolInv ih cfg ob st data
      · exact fun ob st data flags =>
          parse_listitem_poolInv ih cfg ob st data flags
      · exact fun ob st data flags => parse_list_poolInv ih cfg ob st data flags
      · exact fun ob st data columns cd hf =>
          parse_table_row_poolInv ih cfg ob st data columns cd hf
      · exact fun ob st data => parse_table_header_poolInv ih cfg ob st data
      · exact fun ob st data => parse_table_poolInv ih cfg ob st data

theorem poolInv_refs (st : MDMut) (r : RefTable) :
    PoolInv st { st with refs := r } := ⟨rfl, rfl, Or.inl rfl⟩

theorem render_poolInv (cfg : MDCfg) (st : MDMut) (doc : List Nat) :
    PoolInv st (sd_markdown_render cfg st doc).2 := by
  unfold sd_markdown_render
  dsimp only
  repeat' split
  all_goals first
    | exact poolInv_trans (poolInv_refs st _) ((engineInv cfg _).pb _ _ _)
    | exact poolInv_refs st _

/-- C7: for every parser context whose scratch pools are balanced (their
active counts zero, as `sd_markdown_new` creates them) and every input
document, after `sd_markdown_render` returns the active counts of both
scratch pools (`BUFFER_SPAN` and `BUFFER_BLOCK`) are zero: every
`rndr_newbuf` during the render is matched by a release before it
returns. -/
theorem c7_scratch_pools_zero (cfg : MDCfg) (st : MDMut) (doc : List Nat)
    (h1 : st.spanSize = 0) (h2 : st.blockSize = 0) :
    (sd_markdown_render cfg st doc).2.spanSize = 0 ∧
      (sd_markdown_render cfg st doc).2.blockSize = 0 := by
  have h := render_poolInv cfg st doc
  exact ⟨h.1.trans h1, h.2.1.trans h2⟩

/-- Witness for C7 at a concrete context and document. -/
theorem c7_scratch_pools_zero_witness :
    (sd_markdown_render c79cfg c79st c79doc).2.spanSize = 0 ∧
      (sd_markdown_render c79cfg c79st c79doc).2.blockSize = 0 :=
  c7_scratch_pools_zero c79cfg c79st c79doc rfl rfl

theorem render_congr (cfg : MDCfg) (doc : List Nat) (st st2 : MDMut)
    (h1 : st.spanSize = st2.spanSize) (h2 : st.blockSize = st2.blockSize)
    (h3 : st.in_link_body = st2.in_link_body) :
    sd_markdown_render cfg st doc = sd_markdown_render cfg st2 doc := by
  cases st with
  | mk s b i r =>
      cases st2 with
      | mk s2 b2 i2 r2 =>
          dsimp only at h1 h2 h3
          subst h1
          subst h2
          subst h3
          unfold sd_markdown_render
          rfl

/-- C9: rendering twice on the same parser context (in-link-body flag
clear, as `sd_markdown_new` creates it and every render re-establishes)
with the same input document appends byte-identical output: the
reference table is overwritten at the start of each render, the
scratch-pool counts return to their entry values and the in-link-body
flag returns to false, so no state carried from the first render changes
the second render's output. -/
theorem c9_rerender (cfg : MDCfg) (st : MDMut) (doc : List Nat)
    (h3 : st.in_link_body = false) :
    (sd_markdown_render cfg (sd_markdown_render cfg st doc).2 doc).1 =
      (sd_markdown_render cfg st doc).1 := by
  have hp := render_poolInv cfg st doc
  have hc : sd_markdown_render cfg (sd_markdown_render cfg st doc).2 doc
      = sd_markdown_render cfg st doc := by
    apply render_congr
    · exact hp.1
    · exact hp.2.1
    · rcases hp.2.2 with h | h
      · exact h
      · exact h.trans h3.symm
  exact congrArg Prod.fst hc

/-- Witness for C9 at a concrete context and document. -/
theorem c9_rerender_witness :
    (sd_markdown_render c79cfg (sd_markdown_render c79cfg c79st c79doc).2
        c79doc).1 =
      (sd_markdown_render c79cfg c79st c79doc).1 :=
  c9_rerender c79cfg c79st c79doc rfl

end Theorems

end Markdown
